import Mathlib

/-!
Shallow embedding of `table/message.go` (gobgp table package as vendored by
metallb): the AS-path 2-byte/4-byte codecs (`UpdatePathAttrs2ByteAs`,
`UpdatePathAttrs4ByteAs`), the aggregator codec
(`UpdatePathAggregator4ByteAs`), and the IPv4-unicast packer
(`packerV4.add` / `packerV4.pack`).

Machine integers are modelled as `Nat` (every arithmetic site either cannot
overflow or is guarded in the source); Go slices become `List`s; a Go panic
(failed type assertion, out-of-range index or slice) is modelled as `none` of
an `Option`-returning function.
-/

namespace GobgpTable

/-- AS-path segment types (`BGP_ASPATH_ATTR_TYPE_*` of the bgp package). -/
inductive SegType where
  | seq
  | set
  | confedSeq
  | confedSet
deriving DecidableEq

/-- A 4-byte AS-path segment (`bgp.As4PathParam`): a segment type and the
ordered AS numbers (uint32 values, modelled as `Nat`). -/
structure As4PathParam where
  typ : SegType
  AS : List Nat
deriving DecidableEq

/-- A 2-byte AS-path segment (`bgp.AsPathParam`): a segment type and the
ordered AS numbers (uint16 values, modelled as `Nat`). -/
structure AsPathParam where
  typ : SegType
  AS : List Nat
deriving DecidableEq

/-- An element of `PathAttributeAsPath.Value` (`bgp.AsPathParamInterface`):
either a 2-byte or a 4-byte segment. -/
inductive AsPathParamI where
  | as2 (p : AsPathParam)
  | as4 (p : As4PathParam)
deriving DecidableEq

/-- Width tag of an aggregator value (`reflect.Uint16` / `reflect.Uint32`,
the only two kinds the source stores in `Value.Askind`). -/
inductive AsKind where
  | uint16
  | uint32
deriving DecidableEq

/-- A decoded path attribute, closed over the variants `message.go`
dispatches on; every other attribute is opaque (`other`). The aggregator
address is an opaque identifier. -/
inductive PathAttr where
  | asPath (params : List AsPathParamI)
  | as4Path (params : List As4PathParam)
  | aggregator (askind : AsKind) (AS : Nat) (address : Nat)
  | as4Aggregator (AS : Nat) (address : Nat)
  | other (tag : Nat)
deriving DecidableEq

/-- Reserved 2-byte placeholder AS number (`bgp.AS_TRANS`, RFC 6793). -/
def AS_TRANS : Nat := 23456

/-- Modelled from the spec: BGP error code UPDATE_MESSAGE_ERROR (the numeric
value is from RFC 4271; only the identity of the code matters here). -/
def BGP_ERROR_UPDATE_MESSAGE_ERROR : Nat := 3

/-- Modelled from the spec: BGP error subcode MALFORMED_ATTRIBUTE_LIST. -/
def BGP_ERROR_SUB_MALFORMED_ATTRIBUTE_LIST : Nat := 1

/-- Modelled from the spec: the typed protocol error built by
`bgp.NewMessageError` — a BGP error code/subcode pair plus a message. -/
structure MessageError where
  typeCode : Nat
  subTypeCode : Nat
  message : String
deriving DecidableEq

/-- Modelled from the spec: `As4PathParam.ASLen` of the external bgp package.
A SEQ segment contributes its AS-number count to the path length, a SET
segment contributes exactly 1 regardless of member count, and confederation
segments contribute 0 (their contribution is accounted separately by
`message.go` as `asConfedLen`). -/
def As4PathParam.ASLen (p : As4PathParam) : Nat :=
  match p.typ with
  | .seq => p.AS.length
  | .set => 1
  | .confedSeq => 0
  | .confedSet => 0

/-- The `asConfedLen` contribution of one segment (`message.go` lines
118-123): 1 for a CONFED_SET, the member count for a CONFED_SEQ, 0 else. -/
def confedContribution (p : As4PathParam) : Nat :=
  match p.typ with
  | .confedSet => 1
  | .confedSeq => p.AS.length
  | _ => 0

/-- Selector for an AS_PATH attribute (the `*bgp.PathAttributeAsPath` case of
the source's type switches). -/
def asPathSel : PathAttr → Option (List AsPathParamI)
  | .asPath ps => some ps
  | _ => none

/-- Selector for an AS4_PATH attribute (`*bgp.PathAttributeAs4Path`). -/
def as4PathSel : PathAttr → Option (List As4PathParam)
  | .as4Path ps => some ps
  | _ => none

/-- First attribute matched by `f`, with its index: the `for ... break` scan
of `UpdatePathAttrs2ByteAs`. -/
def findFirstBy (f : PathAttr → Option β) : List PathAttr → Option (Nat × β)
  | [] => none
  | a :: rest =>
    match f a with
    | some b => some (0, b)
    | none => (findFirstBy f rest).map fun ib => (ib.1 + 1, ib.2)

/-- Last attribute matched by `f`, with its index: the non-breaking scans of
`UpdatePathAttrs4ByteAs` and `UpdatePathAggregator4ByteAs` overwrite their
local on every match, so the last occurrence wins. -/
def findLastBy (f : PathAttr → Option β) : List PathAttr → Option (Nat × β)
  | [] => none
  | a :: rest =>
    match findLastBy f rest with
    | some ib => some (ib.1 + 1, ib.2)
    | none => (f a).map fun b => (0, b)

/-- The Go type assertion `param.(*bgp.As4PathParam)`: `none` models the
panic on a 2-byte segment. -/
def asAs4Param : AsPathParamI → Option As4PathParam
  | .as4 p => some p
  | .as2 _ => none

/-- Assert every segment 4-byte (the per-element type assertion of the
downgrade loop); `none` models the panic on the first 2-byte segment. -/
def asAs4Params : List AsPathParamI → Option (List As4PathParam)
  | [] => some []
  | q :: rest =>
    match asAs4Param q with
    | none => none
    | some p => (asAs4Params rest).map (p :: ·)

/-- `UpdatePathAttrs2ByteAs` (`message.go` lines 26-74): find the first
AS_PATH attribute (no-op when absent); replace every AS number above 65535
by AS_TRANS in a rebuilt 2-byte AS_PATH (`uint16(as)` narrows the others);
when at least one number was replaced, append an AS4_PATH carrying the
original segments minus any CONFED_SEQ/CONFED_SET segment. -/
def UpdatePathAttrs2ByteAs (attrs : List PathAttr) : Option (List PathAttr) :=
  match findFirstBy asPathSel attrs with
  | none => some attrs
  | some (idx, params) =>
    match asAs4Params params with
    | none => none
    | some as4s =>
      let as2Params := as4s.map fun p =>
        AsPathParamI.as2 ⟨p.typ, p.AS.map fun a => if 65535 < a then AS_TRANS else a % 65536⟩
      let mkAs4 := as4s.any fun p => p.AS.any fun a => 65535 < a
      let as4Params := as4s.filter fun p =>
        decide (p.typ ≠ SegType.confedSeq ∧ p.typ ≠ SegType.confedSet)
      let attrs1 := attrs.set idx (PathAttr.asPath as2Params)
      some (if mkAs4 then attrs1 ++ [PathAttr.as4Path as4Params] else attrs1)

/-- Normalization of one segment to 4-byte width (`message.go` lines 85-95):
a 2-byte segment is rebuilt as a 4-byte segment with the same type and
numbers (`uint32(as)` widens); a 4-byte segment is left as is. -/
def normalizeParam : AsPathParamI → As4PathParam
  | .as2 p => ⟨p.typ, p.AS⟩
  | .as4 p => p

/-- Effect of the normalization scan on one attribute: AS_PATH segments are
normalized in place, every other attribute is untouched. -/
def normAttr : PathAttr → PathAttr
  | .asPath ps => .asPath (ps.map fun q => AsPathParamI.as4 (normalizeParam q))
  | a => a

/-- Step-8 walk of `UpdatePathAttrs4ByteAs` (`message.go` lines 165-180):
keep whole segments while `keepNum` permits (a kept segment consumes its
`ASLen`; the loop breaks once `keepNum` reaches 0), otherwise truncate the
current segment's AS list to the remaining `keepNum` entries and stop. -/
def keepWalk : Nat → List As4PathParam → List As4PathParam
  | _, [] => []
  | keepNum, p :: rest =>
    if p.ASLen ≤ keepNum then
      if keepNum - p.ASLen = 0 then [p]
      else p :: keepWalk (keepNum - p.ASLen) rest
    else
      [⟨p.typ, p.AS.take keepNum⟩]

/-- Step-9 merge of `UpdatePathAttrs4ByteAs` (`message.go` lines 182-195),
appending the filtered AS4_PATH segments to the retained segments. When the
current segment and the last retained one are both SEQ they are merged,
splitting at 255 entries. The reslice `param.AS[255-len(lastParam.AS):]` is
evaluated after `lastParam.AS` has grown to exactly 255 entries, so it
drops `255 - lastAS.length = 0` elements — this is modelled verbatim.
`none` models the Go panics (`newParams[len(newParams)-1]` on an empty list,
and the negative slice bound when the last segment already holds more than
255 entries). -/
def mergeAs4 : List As4PathParam → List As4PathParam → Option (List As4PathParam)
  | newParams, [] => some newParams
  | newParams, param :: rest =>
    match newParams.getLast? with
    | none => none
    | some lastParam =>
      if param.typ = lastParam.typ ∧ param.typ = SegType.seq then
        if 255 < lastParam.AS.length + param.AS.length then
          if lastParam.AS.length ≤ 255 then
            let lastAS := lastParam.AS ++ param.AS.take (255 - lastParam.AS.length)
            let paramAS := param.AS.drop (255 - lastAS.length)
            mergeAs4 (newParams.dropLast ++ [⟨lastParam.typ, lastAS⟩, ⟨param.typ, paramAS⟩]) rest
          else none
        else
          mergeAs4 (newParams.dropLast ++ [⟨lastParam.typ, lastParam.AS ++ param.AS⟩]) rest
      else
        mergeAs4 (newParams ++ [param]) rest

/-- `UpdatePathAttrs4ByteAs` (`message.go` lines 76-204). The scan
normalizes every AS_PATH attribute to 4-byte segments and records the last
AS_PATH and AS4_PATH positions; the AS4_PATH attribute (when present) is
removed; with both attributes present the lengths are compared
(confederation segments are dropped from AS4_PATH first), the AS4_PATH is
discarded when it is longer, and otherwise the kept prefix of AS_PATH is
spliced with the AS4_PATH segments and written back at the recorded AS_PATH
position. The Go error result is `nil` on every path, so success is `some`;
`none` models a panic (merge on an empty segment list, negative slice bound,
or the stale write index falling outside the shrunk attribute list). -/
def UpdatePathAttrs4ByteAs (attrs : List PathAttr) : Option (List PathAttr) :=
  let attrs1 := attrs.map normAttr
  let attrs2 :=
    match findLastBy as4PathSel attrs with
    | some p4 => attrs1.eraseIdx p4.1
    | none => attrs1
  match findLastBy asPathSel attrs, findLastBy as4PathSel attrs with
  | none, _ => some attrs2
  | some _, none => some attrs2
  | some (posA, psA), some (_, ps4) =>
    let asParams := psA.map normalizeParam
    let asLen := (asParams.map As4PathParam.ASLen).sum
    let asConfedLen := (asParams.map confedContribution).sum
    let as4Params := ps4.filter fun p =>
      decide (p.typ ≠ SegType.confedSeq ∧ p.typ ≠ SegType.confedSet)
    let as4Len := (as4Params.map As4PathParam.ASLen).sum
    if asLen + asConfedLen < as4Len then some attrs2
    else
      match mergeAs4 (keepWalk (asLen + asConfedLen - as4Len) asParams) as4Params with
      | none => none
      | some merged =>
        if posA < attrs2.length then
          some (attrs2.set posA (PathAttr.asPath (merged.map AsPathParamI.as4)))
        else none

/-- Selector for a 16-bit-tagged AGGREGATOR attribute, yielding its AS
number and address (the `Askind == reflect.Uint16` case of the scan). -/
def u16AggSel : PathAttr → Option (Nat × Nat)
  | .aggregator .uint16 a addr => some (a, addr)
  | _ => none

/-- Selector for an AS4_AGGREGATOR attribute. -/
def as4AggSel : PathAttr → Option (Nat × Nat)
  | .as4Aggregator a addr => some (a, addr)
  | _ => none

/-- Width upgrade applied by the scan of `UpdatePathAggregator4ByteAs`:
every 16-bit-tagged AGGREGATOR it meets is retagged 32-bit in place. -/
def aggKindUp : PathAttr → PathAttr
  | .aggregator .uint16 a addr => .aggregator .uint32 a addr
  | a => a

/-- `UpdatePathAggregator4ByteAs` (`message.go` lines 227-257): scan for a
16-bit-tagged AGGREGATOR (retagging it 32-bit) and an AS4_AGGREGATOR; no-op
when neither is found; a malformed-attribute-list error when AS4_AGGREGATOR
is present without a 16-bit AGGREGATOR; otherwise remove the AS4_AGGREGATOR
and copy its AS number into the AGGREGATOR. -/
def UpdatePathAggregator4ByteAs (attrs : List PathAttr) :
    Except MessageError (List PathAttr) :=
  let attrs1 := attrs.map aggKindUp
  match findLastBy u16AggSel attrs, findLastBy as4AggSel attrs with
  | none, none => .ok attrs1
  | some _, none => .ok attrs1
  | none, some _ =>
    .error ⟨BGP_ERROR_UPDATE_MESSAGE_ERROR, BGP_ERROR_SUB_MALFORMED_ATTRIBUTE_LIST,
      "AS4 AGGREGATOR attribute exists, but AGGREGATOR does not"⟩
  | some (i, _, addr), some (j, b, _) =>
    .ok (((attrs1.set i (PathAttr.aggregator .uint32 b addr))).eraseIdx j)

/-- Flat AS-number sequence carried by the AS_PATH attributes of a message:
the concatenation, in order, of every AS_PATH segment's AS numbers. -/
def flatAS (attrs : List PathAttr) : List Nat :=
  attrs.flatMap fun a =>
    match a with
    | .asPath ps =>
      ps.flatMap fun q =>
        match q with
        | .as2 p => p.AS
        | .as4 p => p.AS
    | _ => []

/-! ## The IPv4-unicast packer (`packerV4`) -/

/-- A serialized path attribute as the packer sees it: its type tag, the
bytes of `Serialize()` and the value of `Len()` (both supplied by the
external bgp package, hence independent fields here). -/
structure Attr where
  typ : Nat
  ser : List Nat
  len : Nat
deriving DecidableEq

/-- A route as the packer consumes it (`*table.Path`): the end-of-RIB and
withdrawal flags, whether `GetNexthop().To4()` is nil (an RFC 5549 route),
the attribute-set fingerprint `GetHash()`, the attribute list
`GetPathAttrs()`, and the NLRI (`GetNlri()`), modelled as an opaque
identifier. -/
structure Path where
  isEOR : Bool
  isWithdraw : Bool
  nexthopNonV4 : Bool
  hash : Nat
  attrs : List Attr
  nlri : Nat
deriving DecidableEq

/-- Concatenated `Serialize()` bytes of an attribute list (the
`bytes.Buffer` built in `packerV4.add`). -/
def serAttrs (attrs : List Attr) : List Nat :=
  attrs.flatMap Attr.ser

/-- Total `Len()` of an attribute list (the `attrsLen` sum of
`packerV4.pack`). -/
def attrsLenOf (attrs : List Attr) : Nat :=
  (attrs.map Attr.len).sum

/-- An attribute-grouping bucket (`cage`): the exact serialized attribute
bytes plus the routes sharing those bytes. -/
structure Cage where
  attrsBytes : List Nat
  paths : List Path
deriving DecidableEq

/-- State of the IPv4-unicast packer (`packerV4`). The Go `hashmap` field is
a `map[uint32][]*cage`; it is modelled as an association list in insertion
order (Go map iteration order is unspecified, so no claim below depends on
bucket order). The `family` field is constant (`RF_IPv4_UC`) and omitted. -/
structure PackerV4 where
  eof : Bool
  total : Nat
  hashmap : List (Nat × List Cage)
  mpPaths : List Path
  withdrawals : List Path
deriving DecidableEq

/-- `newPackerV4`. -/
def newPackerV4 : PackerV4 :=
  { eof := false, total := 0, hashmap := [], mpPaths := [], withdrawals := [] }

/-- Scan the cage list of one bucket (`packerV4.add`, lines 378-389): the
first cage with byte-identical serialized attributes receives the path;
otherwise a new cage is appended. -/
def addToCages : List Cage → List Nat → Path → List Cage
  | [], b, p => [⟨b, [p]⟩]
  | c :: cs, b, p =>
    if c.attrsBytes = b then { c with paths := c.paths ++ [p] } :: cs
    else c :: addToCages cs b p

/-- Insert a path under its fingerprint key (the `p.hashmap[key]` update of
`packerV4.add`): a missing key starts a fresh one-cage bucket. -/
def insertCage : List (Nat × List Cage) → Nat → List Nat → Path → List (Nat × List Cage)
  | [], k, b, p => [(k, [⟨b, [p]⟩])]
  | (k', cs) :: rest, k, b, p =>
    if k' = k then (k', addToCages cs b p) :: rest
    else (k', cs) :: insertCage rest k b p

/-- `packerV4.add` (`message.go` lines 352-393): count the route; an
end-of-RIB marker sets the flag; a withdrawal goes to the withdrawal list; a
route with a non-IPv4 next-hop (RFC 5549) goes to the MP side list; any
other route is grouped by fingerprint and serialized attribute bytes. -/
def addPath (st : PackerV4) (p : Path) : PackerV4 :=
  let st := { st with total := st.total + 1 }
  if p.isEOR then { st with eof := true }
  else if p.isWithdraw then { st with withdrawals := st.withdrawals ++ [p] }
  else if p.nexthopNonV4 then { st with mpPaths := st.mpPaths ++ [p] }
  else { st with hashmap := insertCage st.hashmap p.hash (serAttrs p.attrs) p }

/-- An outgoing message as `packerV4.pack` builds it.
`update w attrs nlris` is `bgp.NewBGPUpdateMessage(w, attrs, nlris)`
(withdrawn routes, path attributes, advertised NLRI). `mpReach nlri attrs`
is `createMPReachMessage`: an UPDATE whose NLRI rides inside a rebuilt
MP_REACH_NLRI attribute (the rebuild replaces the route's MP_REACH_NLRI
attribute with one carrying the route's next-hop and NLRI; the NLRI is
recorded here directly, the rebuilt bytes belong to the external bgp
package). `eor` is `bgp.NewEndOfRib` for the family. -/
inductive Msg where
  | update (withdrawn : List Nat) (attrs : List Attr) (nlris : List Nat)
  | mpReach (nlri : Nat) (attrs : List Attr)
  | eor
deriving DecidableEq

/-- `createMPReachMessage` (`message.go` lines 304-315). -/
def createMPReachMessage (p : Path) : Msg :=
  Msg.mpReach p.nlri p.attrs

/-- Per-message NLRI capacity (`maxNLRIs`, lines 414-416):
`(BGP_MAX_MESSAGE_LENGTH - (19 + 2 + 2 + attrsLen)) / (5 + addpathNLRILen)`
with `BGP_MAX_MESSAGE_LENGTH = 4096` (modelled from the spec: the protocol
maximum of the external bgp package). Go evaluates this in `int`; a
negative Go value and the `Nat`-truncated 0 here both make `split` produce
an empty chunk, which is the only way the value is consumed. -/
def maxNLRIs (addpathNLRILen attrsLen : Nat) : Nat :=
  (4096 - (19 + 2 + 2 + attrsLen)) / (5 + addpathNLRILen)

/-- One `split` step (lines 396-406): the first `max` paths become NLRIs,
the rest are returned (`max` is clamped to the list length). -/
def splitPaths (max : Nat) (paths : List Path) : List Nat × List Path :=
  ((paths.take max).map Path.nlri, paths.drop max)

/-- The chunking loop (lines 418-428), fuelled for structural recursion:
repeatedly `split` off a chunk until the chunk comes back empty (which
happens exactly when the path list is exhausted or `max` permits no NLRI).
`loopChunks` supplies enough fuel for the loop to run to completion. -/
def loopChunksFuel : Nat → Nat → List Path → List (List Nat)
  | 0, _, _ => []
  | fuel + 1, max, paths =>
    let s := splitPaths max paths
    if s.1 = [] then []
    else s.1 :: loopChunksFuel fuel max s.2

/-- The chunking loop with its natural fuel (one unit per produced chunk;
`paths.length` always suffices because every produced chunk is nonempty). -/
def loopChunks (max : Nat) (paths : List Path) : List (List Nat) :=
  loopChunksFuel paths.length max paths

/-- The messages built from one bucket's cage list (the inner loops of
`packerV4.pack`, lines 436-450): for each cage, the shared attribute list
and its length come from the cage's first path (`paths[0]`; the empty-cage
branch is unreachable — every cage is created holding one path), and the
cage's routes are chunked by `maxNLRIs` of that length. -/
def cageMsgs (apLen : Nat) (cs : List Cage) : List Msg :=
  cs.flatMap fun c =>
    match c.paths with
    | [] => []
    | p0 :: _ =>
      (loopChunks (maxNLRIs apLen (attrsLenOf p0.attrs)) c.paths).map
        fun nlris => Msg.update [] p0.attrs nlris

/-- `packerV4.pack` (`message.go` lines 395-460). `ap` is the value of
`bgp.IsAddPathEnabled(false, family, options)` (the AddPath negotiation
state, an external input). Output order: withdrawal chunks, then each
bucket's advertisement chunks, then the RFC 5549 singles, then end-of-RIB. -/
def packV4 (ap : Bool) (st : PackerV4) : List Msg :=
  let addpathNLRILen := if ap then 4 else 0
  let wmsgs := (loopChunks (maxNLRIs addpathNLRILen 0) st.withdrawals).map
    fun nlris => Msg.update nlris [] []
  let amsgs := st.hashmap.flatMap fun kc => cageMsgs addpathNLRILen kc.2
  let mpmsgs := st.mpPaths.map createMPReachMessage
  wmsgs ++ amsgs ++ mpmsgs ++ (if st.eof then [Msg.eor] else [])

/-- Feed a route list to a fresh IPv4-unicast packer and pack it (the
orchestration `CreateUpdateMsgFromPaths` performs for the IPv4-unicast
family). -/
def runPackerV4 (ap : Bool) (inputs : List Path) : List Msg :=
  packV4 ap (inputs.foldl addPath newPackerV4)

/-- Withdrawn prefixes carried by a message list, in order. -/
def withdrawnNLRIs (msgs : List Msg) : List Nat :=
  msgs.flatMap fun m =>
    match m with
    | .update w _ _ => w
    | _ => []

/-- Advertised prefixes carried by a message list, in order (UPDATE NLRI
fields plus the NLRI inside each MP-reach message). -/
def advertisedNLRIs (msgs : List Msg) : List Nat :=
  msgs.flatMap fun m =>
    match m with
    | .update _ _ nlris => nlris
    | .mpReach n _ => [n]
    | .eor => []

/-- The per-message bound claimed for the IPv4-unicast packer: an UPDATE
chunk holds at most `maxNLRIs attrsLen` prefixes, where `attrsLen` is the
message's total attribute length (0 for a withdrawal chunk), and
consequently its encoded size — 19 header bytes, 2+2 length fields, the
attributes, and at most `5 + apLen` bytes per IPv4 NLRI — stays within the
4096-byte protocol maximum. MP-reach and end-of-RIB messages carry no
chunk, so the bound does not constrain them. -/
def msgChunkBound (apLen : Nat) : Msg → Prop
  | .update w attrs nlris =>
      w.length + nlris.length ≤ maxNLRIs apLen (attrsLenOf attrs) ∧
      19 + 2 + 2 + attrsLenOf attrs + (5 + apLen) * (w.length + nlris.length) ≤ 4096
  | .mpReach _ _ => True
  | .eor => True

/-- All paths stored in the grouping cages of a packer hashmap. -/
def cagePathsOf (hm : List (Nat × List Cage)) : List Path :=
  hm.flatMap fun kc => kc.2.flatMap Cage.paths

/-- A non-end-of-RIB withdrawal. -/
def isWdr (p : Path) : Bool := !p.isEOR && p.isWithdraw

/-- A non-end-of-RIB advertisement (possibly RFC 5549). -/
def isAdv (p : Path) : Bool := !p.isEOR && !p.isWithdraw

/-- An advertisement with an IPv4 next-hop (grouped into cages). -/
def isAdvV4 (p : Path) : Bool := !p.isEOR && !p.isWithdraw && !p.nexthopNonV4

/-- An RFC 5549 advertisement (non-IPv4 next-hop, diverted to MP packing). -/
def isAdvMP (p : Path) : Bool := !p.isEOR && !p.isWithdraw && p.nexthopNonV4

/-- Bound on runs of consecutive SEQ segments: starting with `carry` AS
numbers already accumulated in an open SEQ run, every SEQ segment keeps the
running total of its run at or below 255 (a SET segment closes the run).
Inputs satisfying this make the step-9 merge stay below its 255-entry split
threshold. -/
def seqRunOKb : Nat → List As4PathParam → Bool
  | _, [] => true
  | carry, q :: rest =>
    if q.typ = SegType.seq then
      decide (carry + q.AS.length ≤ 255) && seqRunOKb (carry + q.AS.length) rest
    else seqRunOKb 0 rest

/-! ## Concrete inputs used by counterexamples and evaluations -/

/-- A message whose AS_PATH is two SEQ segments of 200 AS numbers and whose
AS4_PATH is one SEQ segment of 200 AS numbers (all AS numbers distinct), so
the step-9 merge of the retained 200-entry SEQ segment with the 200-entry
AS4_PATH SEQ segment crosses the 255-entry limit. -/
def c3Input : List PathAttr :=
  [.asPath [.as4 ⟨.seq, List.range 200⟩, .as4 ⟨.seq, (List.range 200).map (200 + ·)⟩],
   .as4Path [⟨.seq, (List.range 200).map (400 + ·)⟩]]

/-- A message whose AS_PATH carries one confederation segment with an AS
number above 65535. -/
def c5Input : List PathAttr := [.asPath [.as4 ⟨.confedSeq, [70000]⟩]]

/-- A message whose AS_PATH and AS4_PATH are both a single SET segment, so
`keepNum = 0` and the step-8 walk starts at a SET segment. -/
def c9Input : List PathAttr := [.asPath [.as4 ⟨.set, [1, 2]⟩], .as4Path [⟨.set, [3, 4]⟩]]

/-- A single advertised route whose serialized attribute length (4073)
leaves `maxNLRIs` no room for even one NLRI per message. -/
def c1Input : List Path :=
  [{ isEOR := false, isWithdraw := false, nexthopNonV4 := false,
     hash := 0, attrs := [⟨9, [1], 4073⟩], nlri := 7 }]

/-! ## Helper lemmas on the attribute scans -/

theorem findLastBy_eq_none {β : Type} (f : PathAttr → Option β) (l : List PathAttr)
    (h : ∀ a ∈ l, f a = none) : findLastBy f l = none := by
  induction l with
  | nil => rfl
  | cons a rest ih =>
    have hr := ih fun x hx => h x (List.mem_cons_of_mem a hx)
    simp [findLastBy, hr, h a (List.mem_cons_self a rest)]

theorem findFirstBy_eq_none {β : Type} (f : PathAttr → Option β) (l : List PathAttr)
    (h : ∀ a ∈ l, f a = none) : findFirstBy f l = none := by
  induction l with
  | nil => rfl
  | cons a rest ih =>
    have hr := ih fun x hx => h x (List.mem_cons_of_mem a hx)
    simp [findFirstBy, hr, h a (List.mem_cons_self a rest)]

theorem findLastBy_append {β : Type} (f : PathAttr → Option β) (l1 l2 : List PathAttr) :
    findLastBy f (l1 ++ l2) =
      match findLastBy f l2 with
      | some ib => some (l1.length + ib.1, ib.2)
      | none => findLastBy f l1 := by
  induction l1 with
  | nil => cases h : findLastBy f l2 <;> simp [h, findLastBy]
  | cons a rest ih =>
    simp only [List.cons_append, findLastBy, List.append_eq]
    rw [ih]
    cases h2 : findLastBy f l2 with
    | some ib => simp [Nat.add_right_comm]
    | none => rfl

/-- The last match in `pre ++ x :: post` sits at `pre.length` when `x`
matches and nothing in `post` does. -/
theorem findLastBy_sandwich {β : Type} (f : PathAttr → Option β) (pre post : List PathAttr)
    (x : PathAttr) (b : β) (hx : f x = some b) (hpost : ∀ a ∈ post, f a = none) :
    findLastBy f (pre ++ x :: post) = some (pre.length, b) := by
  rw [findLastBy_append]
  have : findLastBy f (x :: post) = some (0, b) := by
    simp [findLastBy, findLastBy_eq_none f post hpost, hx]
  simp [this]

/-- The first match in `pre ++ x :: post` sits at `pre.length` when `x`
matches and nothing in `pre` does. -/
theorem findFirstBy_sandwich {β : Type} (f : PathAttr → Option β) (pre post : List PathAttr)
    (x : PathAttr) (b : β) (hx : f x = some b) (hpre : ∀ a ∈ pre, f a = none) :
    findFirstBy f (pre ++ x :: post) = some (pre.length, b) := by
  induction pre with
  | nil => simp [findFirstBy, hx]
  | cons a rest ih =>
    have ha := hpre a (List.mem_cons_self a rest)
    have := ih fun y hy => hpre y (List.mem_cons_of_mem a hy)
    simp [findFirstBy, ha, this]

theorem set_len_append {α : Type} (l1 : List α) (x y : α) (l2 : List α) :
    (l1 ++ x :: l2).set l1.length y = l1 ++ y :: l2 := by
  induction l1 with
  | nil => rfl
  | cons a rest ih => simp [List.set, ih]

theorem eraseIdx_len_append {α : Type} (l1 : List α) (x : α) (l2 : List α) :
    (l1 ++ x :: l2).eraseIdx l1.length = l1 ++ l2 := by
  induction l1 with
  | nil => rfl
  | cons a rest ih => simp [List.eraseIdx, ih]

theorem normAttr_id (a : PathAttr) (h : asPathSel a = none) : normAttr a = a := by
  cases a <;> simp_all [normAttr, asPathSel]

theorem map_normAttr_id (l : List PathAttr) (h : ∀ a ∈ l, asPathSel a = none) :
    l.map normAttr = l := by
  induction l with
  | nil => rfl
  | cons a rest ih =>
    have := normAttr_id a (h a (List.mem_cons_self a rest))
    simp [this, ih fun x hx => h x (List.mem_cons_of_mem a hx)]

/-! ## Claim theorems: the 4-byte upgrade -/

/-- Claim C10: a message carrying an AS4_PATH attribute but no AS_PATH
attribute has its AS4_PATH removed by `UpdatePathAttrs4ByteAs`; every other
attribute is left unchanged, no merge is performed, and the call succeeds
(the Go function returns a nil error). The message holds a single AS4_PATH,
per the data-model invariant of at most one attribute per kind. -/
theorem UpdatePathAttrs4ByteAs_removesOrphanAs4
    (pre post : List PathAttr) (ps : List As4PathParam)
    (hpre : ∀ a ∈ pre, asPathSel a = none ∧ as4PathSel a = none)
    (hpost : ∀ a ∈ post, asPathSel a = none ∧ as4PathSel a = none) :
    UpdatePathAttrs4ByteAs (pre ++ PathAttr.as4Path ps :: post) = some (pre ++ post) := by
  have hnoneA : ∀ a ∈ pre ++ PathAttr.as4Path ps :: post, asPathSel a = none := by
    intro a ha
    rcases List.mem_append.mp ha with h | h
    · exact (hpre a h).1
    · rcases List.mem_cons.mp h with rfl | h
      · rfl
      · exact (hpost a h).1
  have hA : findLastBy asPathSel (pre ++ PathAttr.as4Path ps :: post) = none :=
    findLastBy_eq_none _ _ hnoneA
  have h4 : findLastBy as4PathSel (pre ++ PathAttr.as4Path ps :: post) = some (pre.length, ps) :=
    findLastBy_sandwich _ pre post _ ps rfl fun a ha => (hpost a ha).2
  have hm : (pre ++ PathAttr.as4Path ps :: post).map normAttr =
      pre ++ PathAttr.as4Path ps :: post := map_normAttr_id _ hnoneA
  simp [UpdatePathAttrs4ByteAs, hA, h4, hm, eraseIdx_len_append]

/-- Claim C7: when the AS4_PATH total length (over its
confederation-filtered segments) exceeds `asLen + asConfedLen` of AS_PATH,
`UpdatePathAttrs4ByteAs` discards the AS4_PATH entirely, keeps the
AS_PATH's 4-byte-normalized segments untouched, and succeeds (the Go
function returns a nil error). -/
theorem UpdatePathAttrs4ByteAs_discardsLongerAs4
    (pre mid post : List PathAttr) (psA : List AsPathParamI) (ps4 : List As4PathParam)
    (hpre : ∀ a ∈ pre, asPathSel a = none ∧ as4PathSel a = none)
    (hmid : ∀ a ∈ mid, asPathSel a = none ∧ as4PathSel a = none)
    (hpost : ∀ a ∈ post, asPathSel a = none ∧ as4PathSel a = none)
    (hlen : ((psA.map normalizeParam).map As4PathParam.ASLen).sum
          + ((psA.map normalizeParam).map confedContribution).sum
        < ((ps4.filter fun p =>
              decide (p.typ ≠ SegType.confedSeq ∧ p.typ ≠ SegType.confedSet)).map
            As4PathParam.ASLen).sum) :
    UpdatePathAttrs4ByteAs (pre ++ PathAttr.asPath psA :: (mid ++ PathAttr.as4Path ps4 :: post))
      = some (pre ++ PathAttr.asPath (psA.map fun q => AsPathParamI.as4 (normalizeParam q))
              :: (mid ++ post)) := by
  have hA : findLastBy asPathSel
      (pre ++ PathAttr.asPath psA :: (mid ++ PathAttr.as4Path ps4 :: post))
      = some (pre.length, psA) := by
    apply findLastBy_sandwich asPathSel pre _ (PathAttr.asPath psA) psA rfl
    intro a ha
    rcases List.mem_append.mp ha with h | h
    · exact (hmid a h).1
    · rcases List.mem_cons.mp h with rfl | h
      · rfl
      · exact (hpost a h).1
  have hshape : pre ++ PathAttr.asPath psA :: (mid ++ PathAttr.as4Path ps4 :: post)
      = (pre ++ PathAttr.asPath psA :: mid) ++ PathAttr.as4Path ps4 :: post := by
    simp
  have h4 : findLastBy as4PathSel
      (pre ++ PathAttr.asPath psA :: (mid ++ PathAttr.as4Path ps4 :: post))
      = some ((pre ++ PathAttr.asPath psA :: mid).length, ps4) := by
    rw [hshape]
    exact findLastBy_sandwich _ _ _ _ ps4 rfl fun a ha => (hpost a ha).2
  have hmapmid : mid.map normAttr = mid := map_normAttr_id _ fun a ha => (hmid a ha).1
  have hmappre : pre.map normAttr = pre := map_normAttr_id _ fun a ha => (hpre a ha).1
  have hmappost : post.map normAttr = post := map_normAttr_id _ fun a ha => (hpost a ha).1
  have hm : (pre ++ PathAttr.asPath psA :: (mid ++ PathAttr.as4Path ps4 :: post)).map normAttr
      = (pre ++ PathAttr.asPath (psA.map fun q => AsPathParamI.as4 (normalizeParam q)) :: mid)
        ++ PathAttr.as4Path ps4 :: post := by
    simp [hmappre, hmapmid, hmappost, normAttr]
  have herase : ((pre ++ PathAttr.asPath (psA.map fun q => AsPathParamI.as4 (normalizeParam q))
        :: mid) ++ PathAttr.as4Path ps4 :: post).eraseIdx
        (pre ++ PathAttr.asPath psA :: mid).length
      = pre ++ PathAttr.asPath (psA.map fun q => AsPathParamI.as4 (normalizeParam q))
        :: (mid ++ post) := by
    have hl : (pre ++ PathAttr.asPath psA :: mid).length
        = (pre ++ PathAttr.asPath (psA.map fun q => AsPathParamI.as4 (normalizeParam q))
           :: mid).length := by simp
    rw [hl, eraseIdx_len_append]
    simp
  simp only [UpdatePathAttrs4ByteAs, hA, h4, hm]
  rw [if_pos hlen, herase]

/-! ## Claim theorems: the 2-byte downgrade -/

/-- Claim C6: whenever `UpdatePathAttrs2ByteAs` produces an AS4_PATH
attribute at all (the output is one attribute longer than the input, the
appended attribute being the constructed AS4_PATH), that attribute contains
no CONFED_SEQ and no CONFED_SET segment: confederation segments of the
input AS_PATH are excluded from it. -/
theorem UpdatePathAttrs2ByteAs_noConfedInAs4
    (attrs out : List PathAttr)
    (hout : UpdatePathAttrs2ByteAs attrs = some out)
    (hlen : out.length = attrs.length + 1) :
    ∃ ps, out.getLast? = some (PathAttr.as4Path ps) ∧
      ∀ p ∈ ps, p.typ ≠ SegType.confedSeq ∧ p.typ ≠ SegType.confedSet := by
  rw [UpdatePathAttrs2ByteAs] at hout
  cases hf : findFirstBy asPathSel attrs with
  | none =>
    rw [hf] at hout
    simp only [Option.some.injEq] at hout
    rw [← hout] at hlen
    omega
  | some ip =>
    obtain ⟨idx, params⟩ := ip
    rw [hf] at hout
    simp only at hout
    cases hm : asAs4Params params with
    | none => rw [hm] at hout; simp at hout
    | some as4s =>
      rw [hm] at hout
      simp only at hout
      cases hmk : as4s.any fun p => p.AS.any fun a => 65535 < a with
      | false =>
        simp only [hmk, if_false, Bool.false_eq_true, Option.some.injEq] at hout
        rw [← hout] at hlen
        simp [List.length_set] at hlen
      | true =>
        simp only [hmk, if_true, Option.some.injEq] at hout
        refine ⟨as4s.filter fun p =>
          decide (p.typ ≠ SegType.confedSeq ∧ p.typ ≠ SegType.confedSet), ?_, ?_⟩
        · rw [← hout, List.getLast?_concat]
        · intro p hp
          exact of_decide_eq_true (List.mem_filter.mp hp).2

/-! ## Claim theorems: the aggregator codec -/

theorem findLastBy_isSome_any {β : Type} (f : PathAttr → Option β) (l : List PathAttr) :
    (findLastBy f l).isSome = l.any fun a => (f a).isSome := by
  induction l with
  | nil => rfl
  | cons a rest ih =>
    cases hr : findLastBy f rest with
    | some ib => simp [findLastBy, hr, ← ih]
    | none => simp [findLastBy, hr, ← ih]

theorem aggKindUp_id (x : PathAttr) (h : u16AggSel x = none) : aggKindUp x = x := by
  cases x with
  | aggregator k a ad => cases k <;> simp_all [u16AggSel, aggKindUp]
  | asPath ps => rfl
  | as4Path ps => rfl
  | as4Aggregator b ad => rfl
  | other t => rfl

theorem map_aggKindUp_id (l : List PathAttr) (h : ∀ a ∈ l, u16AggSel a = none) :
    l.map aggKindUp = l := by
  induction l with
  | nil => rfl
  | cons a rest ih =>
    have := aggKindUp_id a (h a (List.mem_cons_self a rest))
    simp [this, ih fun x hx => h x (List.mem_cons_of_mem a hx)]

/-- Claim C8: `UpdatePathAggregator4ByteAs` returns a typed error — whose
code/subcode pair is UPDATE_MESSAGE_ERROR / MALFORMED_ATTRIBUTE_LIST — if
and only if an AS4_AGGREGATOR attribute is present while no 16-bit-tagged
AGGREGATOR attribute is; when both are present (once each, per the
data-model invariant) it removes the AS4_AGGREGATOR, copies its AS number
into the AGGREGATOR, retags the AGGREGATOR 32-bit, and succeeds. -/
theorem UpdatePathAggregator4ByteAs_spec (attrs : List PathAttr) :
    ((∃ e, UpdatePathAggregator4ByteAs attrs = Except.error e) ↔
      ((attrs.any fun a => (as4AggSel a).isSome) = true ∧
       (attrs.any fun a => (u16AggSel a).isSome) = false)) ∧
    (∀ e, UpdatePathAggregator4ByteAs attrs = Except.error e →
      e.typeCode = BGP_ERROR_UPDATE_MESSAGE_ERROR ∧
      e.subTypeCode = BGP_ERROR_SUB_MALFORMED_ATTRIBUTE_LIST) ∧
    (∀ pre mid post a addr b addr4,
      attrs = pre ++ PathAttr.aggregator AsKind.uint16 a addr ::
        (mid ++ PathAttr.as4Aggregator b addr4 :: post) →
      (∀ x ∈ pre ++ (mid ++ post), u16AggSel x = none ∧ as4AggSel x = none) →
      UpdatePathAggregator4ByteAs attrs =
        Except.ok (pre ++ PathAttr.aggregator AsKind.uint32 b addr :: (mid ++ post))) := by
  have hany4 : (attrs.any fun a => (as4AggSel a).isSome) = (findLastBy as4AggSel attrs).isSome :=
    (findLastBy_isSome_any _ _).symm
  have hany16 : (attrs.any fun a => (u16AggSel a).isSome) = (findLastBy u16AggSel attrs).isSome :=
    (findLastBy_isSome_any _ _).symm
  refine ⟨?_, ?_, ?_⟩
  · cases h16 : findLastBy u16AggSel attrs with
    | some ib => cases h4 : findLastBy as4AggSel attrs with
      | some jb =>
        obtain ⟨i, a, addr⟩ := ib; obtain ⟨j, b, addr4⟩ := jb
        simp [UpdatePathAggregator4ByteAs, h16, h4, hany4, hany16]
      | none =>
        obtain ⟨i, a, addr⟩ := ib
        simp [UpdatePathAggregator4ByteAs, h16, h4, hany4, hany16]
    | none => cases h4 : findLastBy as4AggSel attrs with
      | some jb =>
        obtain ⟨j, b, addr4⟩ := jb
        simp [UpdatePathAggregator4ByteAs, h16, h4, hany4, hany16]
      | none =>
        simp [UpdatePathAggregator4ByteAs, h16, h4, hany4, hany16]
  · intro e he
    cases h16 : findLastBy u16AggSel attrs with
    | some ib =>
      obtain ⟨i, a, addr⟩ := ib
      cases h4 : findLastBy as4AggSel attrs with
      | some jb =>
        obtain ⟨j, b, addr4⟩ := jb
        simp [UpdatePathAggregator4ByteAs, h16, h4] at he
      | none => simp [UpdatePathAggregator4ByteAs, h16, h4] at he
    | none =>
      cases h4 : findLastBy as4AggSel attrs with
      | some jb =>
        obtain ⟨j, b, addr4⟩ := jb
        simp only [UpdatePathAggregator4ByteAs, h16, h4, Except.error.injEq] at he
        rw [← he]
        exact ⟨rfl, rfl⟩
      | none => simp [UpdatePathAggregator4ByteAs, h16, h4] at he
  · intro pre mid post a addr b addr4 heq hside
    subst heq
    have hmid : ∀ x ∈ mid, u16AggSel x = none ∧ as4AggSel x = none := fun x hx =>
      hside x (List.mem_append.mpr (Or.inr (List.mem_append.mpr (Or.inl hx))))
    have hpre : ∀ x ∈ pre, u16AggSel x = none ∧ as4AggSel x = none := fun x hx =>
      hside x (List.mem_append.mpr (Or.inl hx))
    have hpost : ∀ x ∈ post, u16AggSel x = none ∧ as4AggSel x = none := fun x hx =>
      hside x (List.mem_append.mpr (Or.inr (List.mem_append.mpr (Or.inr hx))))
    have h16 : findLastBy u16AggSel
        (pre ++ PathAttr.aggregator AsKind.uint16 a addr ::
          (mid ++ PathAttr.as4Aggregator b addr4 :: post))
        = some (pre.length, a, addr) := by
      apply findLastBy_sandwich u16AggSel pre _
        (PathAttr.aggregator AsKind.uint16 a addr) (a, addr) rfl
      intro x hx
      rcases List.mem_append.mp hx with h | h
      · exact (hmid x h).1
      · rcases List.mem_cons.mp h with rfl | h
        · rfl
        · exact (hpost x h).1
    have hshape : pre ++ PathAttr.aggregator AsKind.uint16 a addr ::
          (mid ++ PathAttr.as4Aggregator b addr4 :: post)
        = (pre ++ PathAttr.aggregator AsKind.uint16 a addr :: mid)
          ++ PathAttr.as4Aggregator b addr4 :: post := by
      simp
    have h4 : findLastBy as4AggSel
        (pre ++ PathAttr.aggregator AsKind.uint16 a addr ::
          (mid ++ PathAttr.as4Aggregator b addr4 :: post))
        = some ((pre ++ PathAttr.aggregator AsKind.uint16 a addr :: mid).length, b, addr4) := by
      rw [hshape]
      exact findLastBy_sandwich _ _ _ _ (b, addr4) rfl fun x hx => (hpost x hx).2
    have hmap : (pre ++ PathAttr.aggregator AsKind.uint16 a addr ::
          (mid ++ PathAttr.as4Aggregator b addr4 :: post)).map aggKindUp
        = pre ++ PathAttr.aggregator AsKind.uint32 a addr ::
          (mid ++ PathAttr.as4Aggregator b addr4 :: post) := by
      simp [map_aggKindUp_id pre fun x hx => (hpre x hx).1,
            map_aggKindUp_id mid fun x hx => (hmid x hx).1,
            map_aggKindUp_id post fun x hx => (hpost x hx).1, aggKindUp]
    have hset : (pre ++ PathAttr.aggregator AsKind.uint32 a addr ::
          (mid ++ PathAttr.as4Aggregator b addr4 :: post)).set pre.length
            (PathAttr.aggregator AsKind.uint32 b addr)
        = (pre ++ PathAttr.aggregator AsKind.uint32 b addr :: mid)
          ++ PathAttr.as4Aggregator b addr4 :: post := by
      rw [set_len_append]
      simp
    have herase : ((pre ++ PathAttr.aggregator AsKind.uint32 b addr :: mid)
          ++ PathAttr.as4Aggregator b addr4 :: post).eraseIdx
            (pre ++ PathAttr.aggregator AsKind.uint16 a addr :: mid).length
        = pre ++ PathAttr.aggregator AsKind.uint32 b addr :: (mid ++ post) := by
      have hl : (pre ++ PathAttr.aggregator AsKind.uint16 a addr :: mid).length
          = (pre ++ PathAttr.aggregator AsKind.uint32 b addr :: mid).length := by simp
      rw [hl, eraseIdx_len_append]
      simp
    simp only [UpdatePathAggregator4ByteAs, h16, h4, hmap, hset, herase]

/-! ## Claim theorems: downgrade/upgrade round trips -/

theorem asAs4Params_map (l : List As4PathParam) :
    asAs4Params (l.map AsPathParamI.as4) = some l := by
  induction l with
  | nil => rfl
  | cons p rest ih => simp [asAs4Params, asAs4Param, ih]

theorem subst_id (l : List Nat) (h : ∀ n ∈ l, n ≤ 65535) :
    (l.map fun a => if 65535 < a then AS_TRANS else a % 65536) = l := by
  induction l with
  | nil => rfl
  | cons n rest ih =>
    have hn := h n (List.mem_cons_self n rest)
    have h1 : ¬65535 < n := by omega
    have h2 : n % 65536 = n := Nat.mod_eq_of_lt (by omega)
    simp [h1, h2, ih fun x hx => h x (List.mem_cons_of_mem n hx)]

/-- Claim C4: on a message in 4-byte form — a single AS_PATH whose segments
are 4-byte and hold only AS numbers at most 65535, and no AS4_PATH
attribute — `UpdatePathAttrs2ByteAs` followed by `UpdatePathAttrs4ByteAs`
reproduces the message, in particular the exact AS_PATH segment sequence
(types and AS-number sequences). -/
theorem UpdatePathAttrs_roundtrip_small
    (pre post : List PathAttr) (ps4 : List As4PathParam)
    (hpre : ∀ a ∈ pre, asPathSel a = none ∧ as4PathSel a = none)
    (hpost : ∀ a ∈ post, asPathSel a = none ∧ as4PathSel a = none)
    (hsmall : ∀ p ∈ ps4, ∀ n ∈ p.AS, n ≤ 65535) :
    (UpdatePathAttrs2ByteAs
        (pre ++ PathAttr.asPath (ps4.map AsPathParamI.as4) :: post)).bind
        UpdatePathAttrs4ByteAs
      = some (pre ++ PathAttr.asPath (ps4.map AsPathParamI.as4) :: post) := by
  have hf : findFirstBy asPathSel (pre ++ PathAttr.asPath (ps4.map AsPathParamI.as4) :: post)
      = some (pre.length, ps4.map AsPathParamI.as4) :=
    findFirstBy_sandwich _ _ _ _ _ rfl fun a ha => (hpre a ha).1
  have hsubst : (ps4.map fun p => AsPathParamI.as2
        ⟨p.typ, p.AS.map fun a => if 65535 < a then AS_TRANS else a % 65536⟩)
      = ps4.map fun p => AsPathParamI.as2 ⟨p.typ, p.AS⟩ := by
    apply List.map_congr_left
    intro p hp
    rw [subst_id p.AS (hsmall p hp)]
  have hmk : (ps4.any fun p => p.AS.any fun a => 65535 < a) = false := by
    rw [List.any_eq_false]
    intro p hp
    rw [Bool.not_eq_true, List.any_eq_false]
    intro n hn
    have := hsmall p hp n hn
    simp
    omega
  have hdown : UpdatePathAttrs2ByteAs (pre ++ PathAttr.asPath (ps4.map AsPathParamI.as4) :: post)
      = some (pre ++ PathAttr.asPath (ps4.map fun p => AsPathParamI.as2 ⟨p.typ, p.AS⟩) :: post) := by
    simp only [UpdatePathAttrs2ByteAs, hf, asAs4Params_map]
    simp only [hsubst, hmk, Bool.false_eq_true, if_false, set_len_append]
  have h2A : findLastBy asPathSel
      (pre ++ PathAttr.asPath (ps4.map fun p => AsPathParamI.as2 ⟨p.typ, p.AS⟩) :: post)
      = some (pre.length, ps4.map fun p => AsPathParamI.as2 ⟨p.typ, p.AS⟩) :=
    findLastBy_sandwich _ _ _ _ _ rfl fun a ha => (hpost a ha).1
  have h24 : findLastBy as4PathSel
      (pre ++ PathAttr.asPath (ps4.map fun p => AsPathParamI.as2 ⟨p.typ, p.AS⟩) :: post)
      = none := by
    apply findLastBy_eq_none
    intro a ha
    rcases List.mem_append.mp ha with h | h
    · exact (hpre a h).2
    · rcases List.mem_cons.mp h with rfl | h
      · rfl
      · exact (hpost a h).2
  have hnorm : ((ps4.map fun p => AsPathParamI.as2 ⟨p.typ, p.AS⟩).map
        fun q => AsPathParamI.as4 (normalizeParam q)) = ps4.map AsPathParamI.as4 := by
    rw [List.map_map]
    rfl
  have hup : UpdatePathAttrs4ByteAs
      (pre ++ PathAttr.asPath (ps4.map fun p => AsPathParamI.as2 ⟨p.typ, p.AS⟩) :: post)
      = some (pre ++ PathAttr.asPath (ps4.map AsPathParamI.as4) :: post) := by
    have hmap : (pre ++ PathAttr.asPath (ps4.map fun p => AsPathParamI.as2 ⟨p.typ, p.AS⟩)
          :: post).map normAttr
        = pre ++ PathAttr.asPath (ps4.map AsPathParamI.as4) :: post := by
      simp only [List.map_append, List.map_cons,
        map_normAttr_id pre fun a ha => (hpre a ha).1,
        map_normAttr_id post fun a ha => (hpost a ha).1, normAttr, hnorm]
    simp only [UpdatePathAttrs4ByteAs, h2A, h24, hmap]
  rw [hdown]
  exact hup

theorem dropLast_concat_of_getLast? {α : Type} (l : List α) (x : α)
    (h : l.getLast? = some x) : l.dropLast ++ [x] = l := by
  induction l with
  | nil => simp at h
  | cons a rest ih =>
    cases rest with
    | nil => simp_all
    | cons b t =>
      have h' : (b :: t).getLast? = some x := by
        simpa [List.getLast?] using h
      simpa [List.dropLast] using ih h'

theorem keepWalk_zero (q : As4PathParam) (rest : List As4PathParam)
    (h : q.typ = SegType.seq ∨ q.typ = SegType.set) :
    keepWalk 0 (q :: rest) = [⟨q.typ, []⟩] := by
  obtain ⟨t, AS⟩ := q
  rcases h with h | h <;> subst h
  · cases AS with
    | nil => simp [keepWalk, As4PathParam.ASLen]
    | cons n tl => simp [keepWalk, As4PathParam.ASLen]
  · simp [keepWalk, As4PathParam.ASLen]

/-- Under the consecutive-SEQ-run bound, the step-9 merge never crosses its
255-entry split threshold, succeeds, and concatenates AS numbers exactly. -/
theorem mergeAs4_flat (qs : List As4PathParam) :
    ∀ acc : List As4PathParam, ∀ lp, acc.getLast? = some lp →
    (∀ q ∈ qs, q.typ = SegType.seq ∨ q.typ = SegType.set) →
    (lp.typ = SegType.seq → lp.AS.length ≤ 255 ∧ seqRunOKb lp.AS.length qs = true) →
    (lp.typ ≠ SegType.seq → seqRunOKb 0 qs = true) →
    ∃ out, mergeAs4 acc qs = some out ∧
      out.flatMap As4PathParam.AS
        = acc.flatMap As4PathParam.AS ++ qs.flatMap As4PathParam.AS := by
  induction qs with
  | nil =>
    intro acc lp _ _ _ _
    exact ⟨acc, rfl, by simp⟩
  | cons q rest ih =>
    intro acc lp hlast htyp hseq hnonseq
    have hq := htyp q (List.mem_cons_self q rest)
    have htyp' : ∀ x ∈ rest, x.typ = SegType.seq ∨ x.typ = SegType.set :=
      fun x hx => htyp x (List.mem_cons_of_mem q hx)
    have hacc : acc.dropLast ++ [lp] = acc := dropLast_concat_of_getLast? acc lp hlast
    rcases hq with hqseq | hqset
    · by_cases hlp : lp.typ = SegType.seq
      · -- both SEQ: merged without split
        obtain ⟨hlen, hok⟩ := hseq hlp
        rw [seqRunOKb, if_pos hqseq, Bool.and_eq_true, decide_eq_true_eq] at hok
        obtain ⟨hle, hrest⟩ := hok
        have hcond : q.typ = lp.typ ∧ q.typ = SegType.seq := ⟨hqseq.trans hlp.symm, hqseq⟩
        have hno : ¬255 < lp.AS.length + q.AS.length := by omega
        have hlast' : (acc.dropLast ++ [(⟨lp.typ, lp.AS ++ q.AS⟩ : As4PathParam)]).getLast?
            = some ⟨lp.typ, lp.AS ++ q.AS⟩ := List.getLast?_concat _
        obtain ⟨out, hm, hf⟩ := ih (acc.dropLast ++ [⟨lp.typ, lp.AS ++ q.AS⟩])
          ⟨lp.typ, lp.AS ++ q.AS⟩ hlast' htyp'
          (fun _ => ⟨by simpa using hle, by simpa using hrest⟩)
          (fun hne => absurd hlp hne)
        refine ⟨out, ?_, ?_⟩
        · simp only [mergeAs4, hlast]
          rw [if_pos hcond, if_neg hno]
          exact hm
        · rw [hf]
          conv_rhs => rw [← hacc]
          simp
      · -- SEQ after a non-SEQ: plain append
        have hok := hnonseq hlp
        rw [seqRunOKb, if_pos hqseq, Bool.and_eq_true, decide_eq_true_eq] at hok
        obtain ⟨hle, hrest⟩ := hok
        have hcond : ¬(q.typ = lp.typ ∧ q.typ = SegType.seq) := by
          intro hc
          exact hlp (hc.2 ▸ hc.1.symm)
        have hlast' : (acc ++ [q]).getLast? = some q := List.getLast?_concat _
        obtain ⟨out, hm, hf⟩ := ih (acc ++ [q]) q hlast' htyp'
          (fun _ => ⟨by omega, by simpa using hrest⟩)
          (fun hne => absurd hqseq hne)
        refine ⟨out, ?_, ?_⟩
        · simp only [mergeAs4, hlast]
          rw [if_neg hcond]
          exact hm
        · rw [hf]
          simp
    · -- SET segment: plain append, run resets
      have hrest : seqRunOKb 0 rest = true := by
        have hqne : ¬q.typ = SegType.seq := by rw [hqset]; intro h; cases h
        by_cases hlp : lp.typ = SegType.seq
        · have := (hseq hlp).2
          rwa [seqRunOKb, if_neg hqne] at this
        · have := hnonseq hlp
          rwa [seqRunOKb, if_neg hqne] at this
      have hcond : ¬(q.typ = lp.typ ∧ q.typ = SegType.seq) := by
        intro hc
        rw [hqset] at hc
        cases hc.2
      have hlast' : (acc ++ [q]).getLast? = some q := List.getLast?_concat _
      obtain ⟨out, hm, hf⟩ := ih (acc ++ [q]) q hlast' htyp'
        (fun hs => absurd hs (by rw [hqset]; intro h; cases h))
        (fun _ => hrest)
      refine ⟨out, ?_, ?_⟩
      · simp only [mergeAs4, hlast]
        rw [if_neg hcond]
        exact hm
      · rw [hf]
        simp

theorem ASLen_map_eq (t : SegType) (l : List Nat) (f : Nat → Nat) :
    As4PathParam.ASLen ⟨t, l.map f⟩ = As4PathParam.ASLen ⟨t, l⟩ := by
  cases t <;> simp [As4PathParam.ASLen]

theorem confedContribution_eq_zero (p : As4PathParam)
    (h : p.typ = SegType.seq ∨ p.typ = SegType.set) : confedContribution p = 0 := by
  rcases h with h | h <;> simp [confedContribution, h]

theorem filter_nonconfed (l : List As4PathParam)
    (h : ∀ p ∈ l, p.typ = SegType.seq ∨ p.typ = SegType.set) :
    (l.filter fun p => decide (p.typ ≠ SegType.confedSeq ∧ p.typ ≠ SegType.confedSet)) = l := by
  induction l with
  | nil => rfl
  | cons p rest ih =>
    have hp := h p (List.mem_cons_self p rest)
    have hrest := ih fun x hx => h x (List.mem_cons_of_mem p hx)
    have hpred : (decide (p.typ ≠ SegType.confedSeq ∧ p.typ ≠ SegType.confedSet)) = true := by
      rcases hp with hp | hp <;> simp [hp]
    rw [List.filter_cons, if_pos hpred, hrest]

/-- Claim C5 (amended): on a message in 4-byte form whose single AS_PATH
contains an AS number above 65535, holds only SEQ and SET segments, and
keeps every run of consecutive SEQ segments at or below 255 AS numbers in
total, `UpdatePathAttrs2ByteAs` replaces each AS number above 65535 by
AS_TRANS in the 2-byte AS_PATH and appends an AS4_PATH carrying the
original segments, and `UpdatePathAttrs4ByteAs` applied to that result
reconstructs the exact original AS-number sequence. (Unamended, the claim
fails: confederation segments are excluded from AS4_PATH, so their
AS_TRANS placeholders are never restored, and runs of consecutive SEQ
segments beyond 255 entries trip the duplicating split of the step-9
merge.) -/
theorem UpdatePathAttrs_roundtrip_large
    (pre post : List PathAttr) (ps4 : List As4PathParam)
    (hpre : ∀ a ∈ pre, asPathSel a = none ∧ as4PathSel a = none)
    (hpost : ∀ a ∈ post, asPathSel a = none ∧ as4PathSel a = none)
    (htyp : ∀ p ∈ ps4, p.typ = SegType.seq ∨ p.typ = SegType.set)
    (hrun : seqRunOKb 0 ps4 = true)
    (hbig : ∃ p ∈ ps4, ∃ n ∈ p.AS, 65535 < n) :
    ∃ merged : List As4PathParam,
      UpdatePathAttrs2ByteAs (pre ++ PathAttr.asPath (ps4.map AsPathParamI.as4) :: post)
        = some ((pre ++ PathAttr.asPath (ps4.map fun p => AsPathParamI.as2
            ⟨p.typ, p.AS.map fun a => if 65535 < a then AS_TRANS else a % 65536⟩) :: post)
          ++ [PathAttr.as4Path ps4]) ∧
      UpdatePathAttrs4ByteAs ((pre ++ PathAttr.asPath (ps4.map fun p => AsPathParamI.as2
            ⟨p.typ, p.AS.map fun a => if 65535 < a then AS_TRANS else a % 65536⟩) :: post)
          ++ [PathAttr.as4Path ps4])
        = some (pre ++ PathAttr.asPath (merged.map AsPathParamI.as4) :: post) ∧
      merged.flatMap As4PathParam.AS = ps4.flatMap As4PathParam.AS := by
  have hf : findFirstBy asPathSel (pre ++ PathAttr.asPath (ps4.map AsPathParamI.as4) :: post)
      = some (pre.length, ps4.map AsPathParamI.as4) :=
    findFirstBy_sandwich _ _ _ _ _ rfl fun a ha => (hpre a ha).1
  have hmk : (ps4.any fun p => p.AS.any fun a => 65535 < a) = true := by
    rw [List.any_eq_true]
    obtain ⟨p, hp, n, hn, hbign⟩ := hbig
    refine ⟨p, hp, ?_⟩
    rw [List.any_eq_true]
    exact ⟨n, hn, by simpa using hbign⟩
  have hfilter := filter_nonconfed ps4 htyp
  have hdown : UpdatePathAttrs2ByteAs (pre ++ PathAttr.asPath (ps4.map AsPathParamI.as4) :: post)
      = some ((pre ++ PathAttr.asPath (ps4.map fun p => AsPathParamI.as2
          ⟨p.typ, p.AS.map fun a => if 65535 < a then AS_TRANS else a % 65536⟩) :: post)
        ++ [PathAttr.as4Path ps4]) := by
    simp only [UpdatePathAttrs2ByteAs, hf, asAs4Params_map]
    simp only [hmk, if_true, hfilter, set_len_append]
  -- destructure the nonempty AS_PATH
  obtain ⟨q0, r4, rfl⟩ : ∃ q0 r4, ps4 = q0 :: r4 := by
    obtain ⟨p, hp, -⟩ := hbig
    cases ps4 with
    | nil => simp at hp
    | cons a l => exact ⟨a, l, rfl⟩
  have hq0 := htyp q0 (List.mem_cons_self q0 r4)
  -- the downgraded message and its pieces
  set ps2 : List AsPathParamI := (q0 :: r4).map fun p => AsPathParamI.as2
      ⟨p.typ, p.AS.map fun a => if 65535 < a then AS_TRANS else a % 65536⟩ with hps2
  set psSub : List As4PathParam := (q0 :: r4).map fun p =>
      (⟨p.typ, p.AS.map fun a => if 65535 < a then AS_TRANS else a % 65536⟩ : As4PathParam)
    with hpsSub
  have hshape : (pre ++ PathAttr.asPath ps2 :: post) ++ [PathAttr.as4Path (q0 :: r4)]
      = pre ++ PathAttr.asPath ps2 :: (post ++ [PathAttr.as4Path (q0 :: r4)]) := by simp
  have h2A : findLastBy asPathSel
      ((pre ++ PathAttr.asPath ps2 :: post) ++ [PathAttr.as4Path (q0 :: r4)])
      = some (pre.length, ps2) := by
    rw [hshape]
    apply findLastBy_sandwich asPathSel pre _ (PathAttr.asPath ps2) ps2 rfl
    intro a ha
    rcases List.mem_append.mp ha with h | h
    · exact (hpost a h).1
    · rcases List.mem_cons.mp h with rfl | h
      · rfl
      · simp at h
  have h24 : findLastBy as4PathSel
      ((pre ++ PathAttr.asPath ps2 :: post) ++ [PathAttr.as4Path (q0 :: r4)])
      = some ((pre ++ PathAttr.asPath ps2 :: post).length, q0 :: r4) := by
    apply findLastBy_sandwich as4PathSel _ [] (PathAttr.as4Path (q0 :: r4)) (q0 :: r4) rfl
    intro a ha
    simp at ha
  have hnorm4 : (ps2.map fun q => AsPathParamI.as4 (normalizeParam q))
      = psSub.map AsPathParamI.as4 := by
    rw [hps2, hpsSub, List.map_map, List.map_map]
    rfl
  have hnormP : ps2.map normalizeParam = psSub := by
    rw [hps2, hpsSub, List.map_map]
    rfl
  have hmap : ((pre ++ PathAttr.asPath ps2 :: post) ++ [PathAttr.as4Path (q0 :: r4)]).map normAttr
      = (pre ++ PathAttr.asPath (psSub.map AsPathParamI.as4) :: post)
        ++ [PathAttr.as4Path (q0 :: r4)] := by
    simp only [List.map_append, List.map_cons,
      map_normAttr_id pre fun a ha => (hpre a ha).1,
      map_normAttr_id post fun a ha => (hpost a ha).1, normAttr, hnorm4, List.map_nil]
  have herase : ((pre ++ PathAttr.asPath (psSub.map AsPathParamI.as4) :: post)
        ++ [PathAttr.as4Path (q0 :: r4)]).eraseIdx (pre ++ PathAttr.asPath ps2 :: post).length
      = pre ++ PathAttr.asPath (psSub.map AsPathParamI.as4) :: post := by
    have hl : (pre ++ PathAttr.asPath ps2 :: post).length
        = (pre ++ PathAttr.asPath (psSub.map AsPathParamI.as4) :: post).length := by simp
    rw [hl, eraseIdx_len_append]
    simp
  have hASLen : (psSub.map As4PathParam.ASLen).sum
      = ((q0 :: r4).map As4PathParam.ASLen).sum := by
    rw [hpsSub, List.map_map]
    congr 1
    apply List.map_congr_left
    intro p _
    exact ASLen_map_eq p.typ p.AS _
  have hconf : (psSub.map confedContribution).sum = 0 := by
    apply List.sum_eq_zero
    intro x hx
    rw [hpsSub, List.map_map] at hx
    obtain ⟨p, hp, rfl⟩ := List.mem_map.mp hx
    exact confedContribution_eq_zero _ (by rcases htyp p hp with h | h <;> simp [h])
  -- the walked and merged segment lists
  have hwalk : keepWalk 0 psSub = [⟨q0.typ, []⟩] := by
    rw [hpsSub, List.map_cons]
    exact keepWalk_zero _ _ (by rcases hq0 with h | h <;> simp [h])
  obtain ⟨merged, hm, hflat⟩ := mergeAs4_flat (q0 :: r4) [⟨q0.typ, []⟩] ⟨q0.typ, []⟩ rfl htyp
    (fun _ => ⟨by simp, by simpa using hrun⟩) (fun _ => hrun)
  have hflat' : merged.flatMap As4PathParam.AS = (q0 :: r4).flatMap As4PathParam.AS := by
    simpa using hflat
  refine ⟨merged, hdown, ?_, hflat'⟩
  have hnolt : ¬((psSub.map As4PathParam.ASLen).sum + (psSub.map confedContribution).sum
      < ((q0 :: r4).map As4PathParam.ASLen).sum) := by
    rw [hASLen, hconf]
    omega
  have hkeep : (psSub.map As4PathParam.ASLen).sum + (psSub.map confedContribution).sum
      - ((q0 :: r4).map As4PathParam.ASLen).sum = 0 := by
    rw [hASLen, hconf]
    omega
  have hpos : pre.length < (pre ++ PathAttr.asPath (psSub.map AsPathParamI.as4) :: post).length := by
    simp only [List.length_append, List.length_cons]
    omega
  simp only [UpdatePathAttrs4ByteAs, h2A, h24, hmap, herase, hnormP, hfilter]
  rw [if_neg hnolt, hkeep]
  simp only [hwalk, hm, if_pos hpos, set_len_append]

/-- Claim C5 counterexample: the message `c5Input` carries the AS number
70000 > 65535 inside a CONFED_SEQ segment of its AS_PATH; the downgrade
substitutes AS_TRANS but (per RFC 6793) excludes the confederation segment
from the produced AS4_PATH, so the upgrade yields the flat AS sequence
[AS_TRANS] instead of reconstructing [70000] — the round trip stated by the
claim fails on this input. -/
theorem roundtrip_large_counterexample :
    (70000 ∈ flatAS c5Input ∧ 65535 < 70000) ∧
    ((UpdatePathAttrs2ByteAs c5Input).bind UpdatePathAttrs4ByteAs).map flatAS
      = some [AS_TRANS] ∧
    ((UpdatePathAttrs2ByteAs c5Input).bind UpdatePathAttrs4ByteAs).map flatAS
      ≠ some (flatAS c5Input) := by
  decide

set_option maxRecDepth 100000 in
/-- Claim C3 evaluated at `c3Input`: the last retained segment is the SEQ
segment `range 200` and the first appended AS4_PATH segment is the SEQ
segment `(range 200).map (400 + ·)`; their combined count 400 exceeds 255,
and the split produces the segments `range 200 ++ take 55` (255 entries) and
the *entire* 200-entry AS4_PATH segment — the 55 copied AS numbers appear
twice (the flat sequence has 455 entries instead of 400, AS number 400
appearing twice), because the source recomputes `255-len(lastParam.AS)`
after `lastParam.AS` has already grown to 255. -/
theorem mergeSplit_duplicates :
    (UpdatePathAttrs4ByteAs c3Input).map flatAS
      = some ((List.range 200 ++ ((List.range 200).map (400 + ·)).take 55)
          ++ (List.range 200).map (400 + ·)) ∧
    ((List.range 200 ++ ((List.range 200).map (400 + ·)).take 55)
        ++ (List.range 200).map (400 + ·)).length = 455 ∧
    ((List.range 200 ++ ((List.range 200).map (400 + ·)).take 55)
        ++ (List.range 200).map (400 + ·)).count 400 = 2 ∧
    (List.range 200 ++ (List.range 200).map (400 + ·)).length = 400 := by
  decide

/-- Claim C9 evaluated at `c9Input`: with `keepNum = 0` and the first
AS_PATH segment a SET, the step-8 walk truncates the SET segment [1,2] to
an empty SET segment — a partial truncation of a SET, though the source's
own comment on the truncation branch says `only SEQ param reaches here`. -/
theorem keepWalk_truncatesSet :
    UpdatePathAttrs4ByteAs c9Input
      = some [PathAttr.asPath [AsPathParamI.as4 ⟨SegType.set, []⟩,
              AsPathParamI.as4 ⟨SegType.set, [3, 4]⟩]] := by
  decide

/-! ## Witnesses for the AS-path and aggregator theorems -/

theorem removesOrphanAs4_witness :
    UpdatePathAttrs4ByteAs [PathAttr.other 0, PathAttr.as4Path [⟨SegType.seq, [5]⟩],
        PathAttr.other 1]
      = some [PathAttr.other 0, PathAttr.other 1] :=
  UpdatePathAttrs4ByteAs_removesOrphanAs4 [PathAttr.other 0] [PathAttr.other 1]
    [⟨SegType.seq, [5]⟩] (by decide) (by decide)

theorem discardsLongerAs4_witness :
    UpdatePathAttrs4ByteAs [PathAttr.other 0, PathAttr.asPath [AsPathParamI.as2 ⟨SegType.seq, [1]⟩],
        PathAttr.other 1, PathAttr.as4Path [⟨SegType.seq, [5, 6]⟩]]
      = some [PathAttr.other 0, PathAttr.asPath [AsPathParamI.as4 ⟨SegType.seq, [1]⟩],
        PathAttr.other 1] :=
  UpdatePathAttrs4ByteAs_discardsLongerAs4 [PathAttr.other 0] [PathAttr.other 1] []
    [AsPathParamI.as2 ⟨SegType.seq, [1]⟩] [⟨SegType.seq, [5, 6]⟩]
    (by decide) (by decide) (by decide) (by decide)

theorem noConfedInAs4_witness :
    ∃ ps, ([PathAttr.asPath [AsPathParamI.as2 ⟨SegType.confedSeq, [23456]⟩,
          AsPathParamI.as2 ⟨SegType.seq, [23456]⟩],
        PathAttr.as4Path [⟨SegType.seq, [70001]⟩]] : List PathAttr).getLast?
        = some (PathAttr.as4Path ps) ∧
      ∀ p ∈ ps, p.typ ≠ SegType.confedSeq ∧ p.typ ≠ SegType.confedSet :=
  UpdatePathAttrs2ByteAs_noConfedInAs4
    [PathAttr.asPath [AsPathParamI.as4 ⟨SegType.confedSeq, [70000]⟩,
      AsPathParamI.as4 ⟨SegType.seq, [70001]⟩]]
    [PathAttr.asPath [AsPathParamI.as2 ⟨SegType.confedSeq, [23456]⟩,
      AsPathParamI.as2 ⟨SegType.seq, [23456]⟩],
     PathAttr.as4Path [⟨SegType.seq, [70001]⟩]]
    (by decide) (by decide)

theorem aggregator4ByteAs_witness :
    (∃ e, UpdatePathAggregator4ByteAs [PathAttr.as4Aggregator 70000 1] = Except.error e) ∧
    UpdatePathAggregator4ByteAs [PathAttr.other 0, PathAttr.aggregator AsKind.uint16 2345 9,
        PathAttr.other 1, PathAttr.as4Aggregator 70000 8]
      = Except.ok [PathAttr.other 0, PathAttr.aggregator AsKind.uint32 70000 9,
        PathAttr.other 1] := by
  constructor
  · exact (UpdatePathAggregator4ByteAs_spec [PathAttr.as4Aggregator 70000 1]).1.mpr (by decide)
  · exact (UpdatePathAggregator4ByteAs_spec _).2.2 [PathAttr.other 0] [PathAttr.other 1] []
      2345 9 70000 8 rfl (by decide)

theorem roundtrip_small_witness :
    (UpdatePathAttrs2ByteAs [PathAttr.other 3,
        PathAttr.asPath [AsPathParamI.as4 ⟨SegType.seq, [1, 2]⟩,
          AsPathParamI.as4 ⟨SegType.set, [3]⟩]]).bind UpdatePathAttrs4ByteAs
      = some [PathAttr.other 3,
        PathAttr.asPath [AsPathParamI.as4 ⟨SegType.seq, [1, 2]⟩,
          AsPathParamI.as4 ⟨SegType.set, [3]⟩]] :=
  UpdatePathAttrs_roundtrip_small [PathAttr.other 3] [] [⟨SegType.seq, [1, 2]⟩, ⟨SegType.set, [3]⟩]
    (by decide) (by decide) (by decide)

theorem roundtrip_large_witness :
    ∃ merged : List As4PathParam,
      UpdatePathAttrs2ByteAs [PathAttr.asPath [AsPathParamI.as4 ⟨SegType.seq, [65001, 70000, 100]⟩]]
        = some [PathAttr.asPath [AsPathParamI.as2 ⟨SegType.seq, [65001, 23456, 100]⟩],
            PathAttr.as4Path [⟨SegType.seq, [65001, 70000, 100]⟩]] ∧
      UpdatePathAttrs4ByteAs [PathAttr.asPath [AsPathParamI.as2 ⟨SegType.seq, [65001, 23456, 100]⟩],
            PathAttr.as4Path [⟨SegType.seq, [65001, 70000, 100]⟩]]
        = some [PathAttr.asPath (merged.map AsPathParamI.as4)] ∧
      merged.flatMap As4PathParam.AS = [65001, 70000, 100] :=
  UpdatePathAttrs_roundtrip_large [] [] [⟨SegType.seq, [65001, 70000, 100]⟩]
    (by decide) (by decide) (by decide) (by decide) (by decide)

/-! ## Helper lemmas on the packer -/

theorem loopChunksFuel_flatten (max : Nat) (hmax : 1 ≤ max) :
    ∀ fuel (paths : List Path), paths.length ≤ fuel →
    (loopChunksFuel fuel max paths).flatten = paths.map Path.nlri := by
  intro fuel
  induction fuel with
  | zero =>
    intro paths h
    have hp : paths = [] := List.length_eq_zero.mp (Nat.le_zero.mp h)
    subst hp
    rfl
  | succ n ih =>
    intro paths h
    by_cases hp : paths = []
    · subst hp
      simp [loopChunksFuel, splitPaths]
    · have htk : paths.take max ≠ [] := by
        rw [Ne, List.take_eq_nil_iff]
        push_neg
        exact ⟨by omega, hp⟩
      have hne : (paths.take max).map Path.nlri ≠ [] := by
        simpa [List.map_eq_nil_iff] using htk
      rw [loopChunksFuel]
      simp only [splitPaths, if_neg hne, List.flatten_cons]
      rw [ih (paths.drop max) (by simp; omega)]
      rw [← List.map_append, List.take_append_drop]

theorem loopChunks_flatten (max : Nat) (paths : List Path) (hmax : 1 ≤ max) :
    (loopChunks max paths).flatten = paths.map Path.nlri :=
  loopChunksFuel_flatten max hmax paths.length paths le_rfl

theorem loopChunksFuel_mem (max : Nat) :
    ∀ fuel (paths : List Path) (ch : List Nat), ch ∈ loopChunksFuel fuel max paths →
    ch.length ≤ max ∧ ch ≠ [] := by
  intro fuel
  induction fuel with
  | zero =>
    intro paths ch h
    simp [loopChunksFuel] at h
  | succ n ih =>
    intro paths ch h
    rw [loopChunksFuel] at h
    by_cases hne : (splitPaths max paths).1 = []
    · rw [if_pos hne] at h
      simp at h
    · rw [if_neg hne] at h
      rcases List.mem_cons.mp h with rfl | h
      · refine ⟨?_, hne⟩
        simp only [splitPaths]
        rw [List.length_map]
        exact List.length_take_le max paths
      · exact ih _ ch h

theorem loopChunks_mem (max : Nat) (paths : List Path) (ch : List Nat)
    (h : ch ∈ loopChunks max paths) : ch.length ≤ max ∧ ch ≠ [] :=
  loopChunksFuel_mem max paths.length paths ch h

theorem addPath_withdrawals (st : PackerV4) (p : Path) :
    (addPath st p).withdrawals = st.withdrawals ++ (if isWdr p then [p] else []) := by
  cases he : p.isEOR <;> cases hw : p.isWithdraw <;> cases hn : p.nexthopNonV4 <;>
    simp [addPath, isWdr, he, hw, hn]

theorem addPath_mpPaths (st : PackerV4) (p : Path) :
    (addPath st p).mpPaths = st.mpPaths ++ (if isAdvMP p then [p] else []) := by
  cases he : p.isEOR <;> cases hw : p.isWithdraw <;> cases hn : p.nexthopNonV4 <;>
    simp [addPath, isAdvMP, he, hw, hn]

theorem addPath_hashmap (st : PackerV4) (p : Path) :
    (addPath st p).hashmap =
      if isAdvV4 p then insertCage st.hashmap p.hash (serAttrs p.attrs) p
      else st.hashmap := by
  cases he : p.isEOR <;> cases hw : p.isWithdraw <;> cases hn : p.nexthopNonV4 <;>
    simp [addPath, isAdvV4, he, hw, hn]

theorem cagesPaths_addToCages (cs : List Cage) (b : List Nat) (p : Path) :
    ((addToCages cs b p).flatMap Cage.paths).Perm (cs.flatMap Cage.paths ++ [p]) := by
  induction cs with
  | nil => simp [addToCages]
  | cons c rest ih =>
    rw [addToCages]
    by_cases h : c.attrsBytes = b
    · rw [if_pos h]
      simp only [List.flatMap_cons]
      rw [List.append_assoc, List.append_assoc]
      exact List.Perm.append_left c.paths (List.perm_append_comm)
    · rw [if_neg h]
      simp only [List.flatMap_cons]
      rw [List.append_assoc]
      exact List.Perm.append_left c.paths ih

theorem cagePathsOf_insertCage (hm : List (Nat × List Cage)) (k : Nat) (b : List Nat) (p : Path) :
    (cagePathsOf (insertCage hm k b p)).Perm (cagePathsOf hm ++ [p]) := by
  induction hm with
  | nil => simp [insertCage, cagePathsOf, addToCages]
  | cons kc rest ih =>
    obtain ⟨k', cs⟩ := kc
    rw [insertCage]
    by_cases h : k' = k
    · rw [if_pos h]
      simp only [cagePathsOf, List.flatMap_cons]
      have h1 := (cagesPaths_addToCages cs b p).append_right
        (rest.flatMap fun kc => kc.2.flatMap Cage.paths)
      refine h1.trans ?_
      rw [List.append_assoc, List.append_assoc]
      exact List.Perm.append_left _ (List.perm_append_comm)
    · rw [if_neg h]
      simp only [cagePathsOf, List.flatMap_cons]
      rw [List.append_assoc]
      exact List.Perm.append_left _ ih

theorem foldl_withdrawals (l : List Path) :
    ∀ st : PackerV4, (l.foldl addPath st).withdrawals = st.withdrawals ++ l.filter isWdr := by
  induction l with
  | nil => intro st; simp
  | cons p rest ih =>
    intro st
    rw [List.foldl_cons, ih, addPath_withdrawals, List.filter_cons]
    by_cases h : isWdr p <;> simp [h]

theorem foldl_mpPaths (l : List Path) :
    ∀ st : PackerV4, (l.foldl addPath st).mpPaths = st.mpPaths ++ l.filter isAdvMP := by
  induction l with
  | nil => intro st; simp
  | cons p rest ih =>
    intro st
    rw [List.foldl_cons, ih, addPath_mpPaths, List.filter_cons]
    by_cases h : isAdvMP p <;> simp [h]

theorem foldl_eof (l : List Path) :
    ∀ st : PackerV4, (l.foldl addPath st).eof = (st.eof || l.any Path.isEOR) := by
  induction l with
  | nil => intro st; simp
  | cons p rest ih =>
    intro st
    rw [List.foldl_cons, ih]
    have : (addPath st p).eof = (st.eof || p.isEOR) := by
      cases he : p.isEOR <;> cases hw : p.isWithdraw <;> cases hn : p.nexthopNonV4 <;>
        simp [addPath, he, hw, hn]
    rw [this]
    simp [Bool.or_assoc]

theorem foldl_cagePaths (l : List Path) :
    ∀ st : PackerV4, (cagePathsOf (l.foldl addPath st).hashmap).Perm
      (cagePathsOf st.hashmap ++ l.filter isAdvV4) := by
  induction l with
  | nil => intro st; simp
  | cons p rest ih =>
    intro st
    rw [List.foldl_cons]
    refine (ih (addPath st p)).trans ?_
    rw [addPath_hashmap, List.filter_cons]
    by_cases h : isAdvV4 p
    · rw [if_pos h, if_pos h]
      refine ((cagePathsOf_insertCage st.hashmap p.hash (serAttrs p.attrs) p).append_right
        (rest.filter isAdvV4)).trans ?_
      rw [List.append_assoc]
      rfl
    · rw [if_neg h, if_neg h]

theorem withdrawnNLRIs_append (m1 m2 : List Msg) :
    withdrawnNLRIs (m1 ++ m2) = withdrawnNLRIs m1 ++ withdrawnNLRIs m2 := by
  simp [withdrawnNLRIs]

theorem advertisedNLRIs_append (m1 m2 : List Msg) :
    advertisedNLRIs (m1 ++ m2) = advertisedNLRIs m1 ++ advertisedNLRIs m2 := by
  simp [advertisedNLRIs]

theorem withdrawnNLRIs_wchunks (chunks : List (List Nat)) :
    withdrawnNLRIs (chunks.map fun nlris => Msg.update nlris [] []) = chunks.flatten := by
  induction chunks with
  | nil => rfl
  | cons ch rest ih =>
    simp only [List.map_cons, withdrawnNLRIs, List.flatMap_cons] at ih ⊢
    rw [ih, List.flatten_cons]

theorem advertisedNLRIs_wchunks (chunks : List (List Nat)) :
    advertisedNLRIs (chunks.map fun nlris => Msg.update nlris [] []) = [] := by
  induction chunks with
  | nil => rfl
  | cons ch rest ih =>
    simp only [List.map_cons, advertisedNLRIs, List.flatMap_cons] at ih ⊢
    rw [ih]
    rfl

theorem withdrawnNLRIs_achunks (attrs : List Attr) (chunks : List (List Nat)) :
    withdrawnNLRIs (chunks.map fun nlris => Msg.update [] attrs nlris) = [] := by
  induction chunks with
  | nil => rfl
  | cons ch rest ih =>
    simp only [List.map_cons, withdrawnNLRIs, List.flatMap_cons] at ih ⊢
    rw [ih]
    rfl

theorem advertisedNLRIs_achunks (attrs : List Attr) (chunks : List (List Nat)) :
    advertisedNLRIs (chunks.map fun nlris => Msg.update [] attrs nlris) = chunks.flatten := by
  induction chunks with
  | nil => rfl
  | cons ch rest ih =>
    simp only [List.map_cons, advertisedNLRIs, List.flatMap_cons] at ih ⊢
    rw [ih, List.flatten_cons]

theorem withdrawnNLRIs_mp (paths : List Path) :
    withdrawnNLRIs (paths.map createMPReachMessage) = [] := by
  induction paths with
  | nil => rfl
  | cons p rest ih =>
    simp only [List.map_cons, withdrawnNLRIs, List.flatMap_cons, createMPReachMessage] at ih ⊢
    rw [ih]
    rfl

theorem advertisedNLRIs_mp (paths : List Path) :
    advertisedNLRIs (paths.map createMPReachMessage) = paths.map Path.nlri := by
  induction paths with
  | nil => rfl
  | cons p rest ih =>
    simp only [List.map_cons, advertisedNLRIs, List.flatMap_cons, createMPReachMessage] at ih ⊢
    rw [ih]
    rfl

theorem advertisedNLRIs_cages (apLen : Nat) (cs : List Cage)
    (Hc : ∀ p ∈ cs.flatMap Cage.paths, 1 ≤ maxNLRIs apLen (attrsLenOf p.attrs)) :
    advertisedNLRIs (cageMsgs apLen cs) = (cs.flatMap Cage.paths).map Path.nlri := by
  induction cs with
  | nil => rfl
  | cons c rest ih =>
    have hmem_rest : ∀ p ∈ rest.flatMap Cage.paths, 1 ≤ maxNLRIs apLen (attrsLenOf p.attrs) := by
      intro p hp
      apply Hc
      simp only [List.flatMap_cons]
      exact List.mem_append.mpr (Or.inr hp)
    have hrest := ih hmem_rest
    simp only [cageMsgs, List.flatMap_cons] at hrest ⊢
    rw [advertisedNLRIs_append, hrest, List.map_append]
    congr 1
    have hmemc : ∀ p ∈ c.paths, 1 ≤ maxNLRIs apLen (attrsLenOf p.attrs) := by
      intro p hp
      apply Hc
      simp only [List.flatMap_cons]
      exact List.mem_append.mpr (Or.inl hp)
    cases hcp : c.paths with
    | nil => rfl
    | cons p0 t =>
      have hmax : 1 ≤ maxNLRIs apLen (attrsLenOf p0.attrs) :=
        hmemc p0 (by rw [hcp]; exact List.mem_cons_self p0 t)
      rw [advertisedNLRIs_achunks, loopChunks_flatten _ _ hmax]

theorem withdrawnNLRIs_cages (apLen : Nat) (cs : List Cage) :
    withdrawnNLRIs (cageMsgs apLen cs) = [] := by
  induction cs with
  | nil => rfl
  | cons c rest ih =>
    simp only [cageMsgs, List.flatMap_cons] at ih ⊢
    rw [withdrawnNLRIs_append, ih, List.append_nil]
    cases hcp : c.paths with
    | nil => rfl
    | cons p0 t => rw [withdrawnNLRIs_achunks]

theorem packV4_eq (ap : Bool) (st : PackerV4) :
    packV4 ap st =
      ((loopChunks (maxNLRIs (if ap then 4 else 0) 0) st.withdrawals).map
        fun nlris => Msg.update nlris [] [])
      ++ (st.hashmap.flatMap fun kc => cageMsgs (if ap then 4 else 0) kc.2)
      ++ st.mpPaths.map createMPReachMessage
      ++ (if st.eof then [Msg.eor] else []) := rfl

theorem cagePathsOf_flatMap (hm : List (Nat × List Cage)) :
    cagePathsOf hm = hm.flatMap fun kc => kc.2.flatMap Cage.paths := rfl

theorem advertisedNLRIs_buckets (apLen : Nat) (hm : List (Nat × List Cage))
    (Hc : ∀ p ∈ cagePathsOf hm, 1 ≤ maxNLRIs apLen (attrsLenOf p.attrs)) :
    advertisedNLRIs (hm.flatMap fun kc => cageMsgs apLen kc.2)
      = (cagePathsOf hm).map Path.nlri := by
  induction hm with
  | nil => rfl
  | cons kc rest ih =>
    obtain ⟨k, cs⟩ := kc
    have h1 : advertisedNLRIs (cageMsgs apLen cs) = (cs.flatMap Cage.paths).map Path.nlri := by
      apply advertisedNLRIs_cages
      intro p hp
      apply Hc
      simp only [cagePathsOf, List.flatMap_cons]
      exact List.mem_append.mpr (Or.inl hp)
    have h2 : advertisedNLRIs (rest.flatMap fun kc => cageMsgs apLen kc.2)
        = (cagePathsOf rest).map Path.nlri := by
      apply ih
      intro p hp
      apply Hc
      simp only [cagePathsOf, List.flatMap_cons]
      exact List.mem_append.mpr (Or.inr hp)
    simp only [cagePathsOf, List.flatMap_cons] at h2 ⊢
    rw [advertisedNLRIs_append, h1, h2, List.map_append]

theorem withdrawnNLRIs_buckets (apLen : Nat) (hm : List (Nat × List Cage)) :
    withdrawnNLRIs (hm.flatMap fun kc => cageMsgs apLen kc.2) = [] := by
  induction hm with
  | nil => rfl
  | cons kc rest ih =>
    obtain ⟨k, cs⟩ := kc
    rw [List.flatMap_cons, withdrawnNLRIs_append, ih, List.append_nil, withdrawnNLRIs_cages]

theorem filterV4_filterMP_perm (l : List Path) :
    (l.filter isAdvV4 ++ l.filter isAdvMP).Perm (l.filter isAdv) := by
  induction l with
  | nil => simp
  | cons p rest ih =>
    cases he : p.isEOR <;> cases hw : p.isWithdraw <;> cases hn : p.nexthopNonV4 <;>
      simp [List.filter_cons, isAdv, isAdvV4, isAdvMP, he, hw, hn] <;>
      first
      | exact ih
      | exact ih.cons p
      | exact List.perm_middle.trans (ih.cons p)

theorem chunk_size_bound (apLen attrsLen cnt : Nat) (hap : apLen = 0 ∨ apLen = 4)
    (h1 : cnt ≤ maxNLRIs apLen attrsLen) (h2 : 1 ≤ cnt) :
    19 + 2 + 2 + attrsLen + (5 + apLen) * cnt ≤ 4096 := by
  rw [maxNLRIs] at h1
  rcases hap with rfl | rfl
  · have h3 : cnt * 5 ≤ 4096 - (19 + 2 + 2 + attrsLen) := by
      have := (Nat.le_div_iff_mul_le (by norm_num)).mp h1
      simpa using this
    omega
  · have h3 : cnt * 9 ≤ 4096 - (19 + 2 + 2 + attrsLen) := by
      have := (Nat.le_div_iff_mul_le (by norm_num)).mp h1
      simpa using this
    omega

/-! ## Claim theorems: the IPv4-unicast packer -/

/-- Claim C2: every message emitted by the IPv4-unicast packer's `pack`
satisfies the claimed capacity bound: a withdrawal chunk holds at most
`maxNLRIs apLen 0` prefixes and an advertisement chunk at most
`maxNLRIs apLen attrsLen` for its bucket's serialized attribute length,
where `apLen` is 4 with AddPath enabled and 0 otherwise — hence no chunk
message's encoded length exceeds the 4096-byte protocol maximum (MP-reach
and end-of-RIB messages carry no chunk and are unconstrained by the
formula). -/
theorem packerV4_chunkBound (ap : Bool) (inputs : List Path) :
    ∀ m ∈ runPackerV4 ap inputs, msgChunkBound (if ap then 4 else 0) m := by
  intro m hm
  rw [runPackerV4, packV4_eq] at hm
  have hapcase : (if ap then 4 else 0) = 0 ∨ (if ap then 4 else 0) = 4 := by
    cases ap <;> simp
  rcases List.mem_append.mp hm with hm1 | hmE
  rotate_left
  · by_cases he2 : (inputs.foldl addPath newPackerV4).eof
    · rw [if_pos he2] at hmE
      rw [List.mem_singleton.mp hmE]
      trivial
    · rw [if_neg he2] at hmE
      simp at hmE
  rcases List.mem_append.mp hm1 with hm2 | hmMP
  rotate_left
  · obtain ⟨p, _, rfl⟩ := List.mem_map.mp hmMP
    trivial
  rcases List.mem_append.mp hm2 with hmW | hmA
  · obtain ⟨ch, hch, rfl⟩ := List.mem_map.mp hmW
    obtain ⟨hle, hne⟩ := loopChunks_mem _ _ _ hch
    have hcnt : 1 ≤ ch.length := by
      cases ch with
      | nil => exact absurd rfl hne
      | cons a t => simp
    refine ⟨by simpa [attrsLenOf] using hle, ?_⟩
    have := chunk_size_bound (if ap then 4 else 0) 0 ch.length hapcase hle hcnt
    simpa [attrsLenOf] using this
  · obtain ⟨kc, hkc, hmc⟩ := List.mem_flatMap.mp hmA
    rw [cageMsgs] at hmc
    obtain ⟨c, hc, hmm⟩ := List.mem_flatMap.mp hmc
    cases hcpths : c.paths with
    | nil =>
      rw [hcpths] at hmm
      simp at hmm
    | cons p0 t =>
      rw [hcpths] at hmm
      simp only at hmm
      obtain ⟨ch, hch, rfl⟩ := List.mem_map.mp hmm
      obtain ⟨hle, hne⟩ := loopChunks_mem _ _ _ hch
      have hcnt : 1 ≤ ch.length := by
        cases ch with
        | nil => exact absurd rfl hne
        | cons a t => simp
      refine ⟨by simpa using hle, ?_⟩
      have := chunk_size_bound (if ap then 4 else 0) (attrsLenOf p0.attrs) ch.length
        hapcase hle hcnt
      simpa using this

/-- Claim C1 (amended): provided every advertised IPv4-next-hop route's
total attribute length leaves room for at least one NLRI per message
(`1 ≤ maxNLRIs`), the IPv4-unicast packer emits each withdrawn route's
prefix in exactly one withdrawal message (in input order) and each
advertised route's prefix in exactly one advertisement message (as
multisets: no duplicates, no omissions). Unamended, the claim fails: a
route whose attribute length fills the whole message is silently dropped
by the chunking loop. -/
theorem packerV4_partition (ap : Bool) (inputs : List Path)
    (H : ∀ p ∈ inputs, isAdvV4 p = true →
      1 ≤ maxNLRIs (if ap then 4 else 0) (attrsLenOf p.attrs)) :
    withdrawnNLRIs (runPackerV4 ap inputs) = (inputs.filter isWdr).map Path.nlri ∧
    (advertisedNLRIs (runPackerV4 ap inputs) : Multiset Nat)
      = ((inputs.filter isAdv).map Path.nlri : Multiset Nat) := by
  have hapcase : (if ap then 4 else 0) = 0 ∨ (if ap then 4 else 0) = 4 := by
    cases ap <;> simp
  set st := inputs.foldl addPath newPackerV4 with hst
  have hw : st.withdrawals = inputs.filter isWdr := by
    rw [hst, foldl_withdrawals]
    simp [newPackerV4]
  have hmp : st.mpPaths = inputs.filter isAdvMP := by
    rw [hst, foldl_mpPaths]
    simp [newPackerV4]
  have hcp : (cagePathsOf st.hashmap).Perm (inputs.filter isAdvV4) := by
    rw [hst]
    have h := foldl_cagePaths inputs newPackerV4
    simpa [newPackerV4, cagePathsOf] using h
  have hmax0 : 1 ≤ maxNLRIs (if ap then 4 else 0) 0 := by
    rcases hapcase with h | h <;> rw [h] <;> decide
  have hHc : ∀ p ∈ cagePathsOf st.hashmap,
      1 ≤ maxNLRIs (if ap then 4 else 0) (attrsLenOf p.attrs) := by
    intro p hp
    have hmem : p ∈ inputs.filter isAdvV4 := hcp.mem_iff.mp hp
    have h1 := List.mem_filter.mp hmem
    exact H p h1.1 h1.2
  have heorW : withdrawnNLRIs (if st.eof then [Msg.eor] else []) = [] := by
    by_cases h : st.eof <;> simp [h, withdrawnNLRIs]
  have heorA : advertisedNLRIs (if st.eof then [Msg.eor] else []) = [] := by
    by_cases h : st.eof <;> simp [h, advertisedNLRIs]
  constructor
  · rw [runPackerV4, packV4_eq, ← hst]
    rw [withdrawnNLRIs_append, withdrawnNLRIs_append, withdrawnNLRIs_append]
    rw [withdrawnNLRIs_wchunks, withdrawnNLRIs_buckets, withdrawnNLRIs_mp, heorW]
    rw [loopChunks_flatten _ _ hmax0, hw]
    simp
  · rw [runPackerV4, packV4_eq, ← hst]
    rw [advertisedNLRIs_append, advertisedNLRIs_append, advertisedNLRIs_append]
    rw [advertisedNLRIs_wchunks, advertisedNLRIs_buckets _ _ hHc, advertisedNLRIs_mp,
      heorA, hmp]
    simp only [List.nil_append, List.append_nil]
    rw [Multiset.coe_eq_coe]
    refine ((hcp.map Path.nlri).append (List.Perm.refl _)).trans ?_
    rw [← List.map_append]
    exact (filterV4_filterMP_perm inputs).map Path.nlri

/-- Claim C1 counterexample: `c1Input` holds one advertised route with
prefix 7 whose attribute length 4073 makes `maxNLRIs` zero; `pack` emits no
message at all, so the input prefix appears in no output message, against
the claim's "exactly one". -/
theorem packerV4_partition_counterexample :
    (c1Input.filter isAdv).map Path.nlri = [7] ∧ runPackerV4 false c1Input = [] := by
  decide

theorem packerV4_chunkBound_witness :
    msgChunkBound 0 (Msg.update [14] [] []) :=
  packerV4_chunkBound false
    [{ isEOR := false, isWithdraw := true, nexthopNonV4 := false,
       hash := 0, attrs := [], nlri := 14 }]
    (Msg.update [14] [] []) (by decide)

theorem packerV4_partition_witness :
    withdrawnNLRIs (runPackerV4 false
        [⟨false, false, false, 5, [⟨1, [1, 2], 2⟩], 11⟩,
         ⟨false, true, false, 0, [], 14⟩,
         ⟨false, false, false, 5, [⟨1, [1, 2], 2⟩], 12⟩,
         ⟨false, false, true, 0, [⟨1, [1, 2], 2⟩], 15⟩,
         ⟨false, false, false, 5, [⟨1, [1, 2], 2⟩], 13⟩,
         ⟨true, false, false, 0, [], 0⟩])
      = (([⟨false, false, false, 5, [⟨1, [1, 2], 2⟩], 11⟩,
         ⟨false, true, false, 0, [], 14⟩,
         ⟨false, false, false, 5, [⟨1, [1, 2], 2⟩], 12⟩,
         ⟨false, false, true, 0, [⟨1, [1, 2], 2⟩], 15⟩,
         ⟨false, false, false, 5, [⟨1, [1, 2], 2⟩], 13⟩,
         ⟨true, false, false, 0, [], 0⟩] : List Path).filter isWdr).map Path.nlri ∧
    (advertisedNLRIs (runPackerV4 false
        [⟨false, false, false, 5, [⟨1, [1, 2], 2⟩], 11⟩,
         ⟨false, true, false, 0, [], 14⟩,
         ⟨false, false, false, 5, [⟨1, [1, 2], 2⟩], 12⟩,
         ⟨false, false, true, 0, [⟨1, [1, 2], 2⟩], 15⟩,
         ⟨false, false, false, 5, [⟨1, [1, 2], 2⟩], 13⟩,
         ⟨true, false, false, 0, [], 0⟩]) : Multiset Nat)
      = ((([⟨false, false, false, 5, [⟨1, [1, 2], 2⟩], 11⟩,
         ⟨false, true, false, 0, [], 14⟩,
         ⟨false, false, false, 5, [⟨1, [1, 2], 2⟩], 12⟩,
         ⟨false, false, true, 0, [⟨1, [1, 2], 2⟩], 15⟩,
         ⟨false, false, false, 5, [⟨1, [1, 2], 2⟩], 13⟩,
         ⟨true, false, false, 0, [], 0⟩] : List Path).filter isAdv).map Path.nlri
          : Multiset Nat) :=
  packerV4_partition false
    [⟨false, false, false, 5, [⟨1, [1, 2], 2⟩], 11⟩,
     ⟨false, true, false, 0, [], 14⟩,
     ⟨false, false, false, 5, [⟨1, [1, 2], 2⟩], 12⟩,
     ⟨false, false, true, 0, [⟨1, [1, 2], 2⟩], 15⟩,
     ⟨false, false, false, 5, [⟨1, [1, 2], 2⟩], 13⟩,
     ⟨true, false, false, 0, [], 0⟩]
    (by decide)

end GobgpTable